import Mathlib

/-!
Verification of the fin-parser codec library (Rust) against its
natural-language specification.

The development shallowly embeds the library's code:

* machine integers (`u64`, `i64`, `u32`, `u8`) become `Nat`/`Int` with
  explicit `% 2^w` where the Rust code casts or truncates;
* byte streams become `List Nat` (each element `< 256`), character
  streams become `List Char` (the CSV/text tokenizers read bytes and
  re-assemble them with `from_utf8` at token boundaries; on well-formed
  UTF-8 input this is byte-for-byte equivalent to working on chars);
* fallible functions return `Except ParsError` / `RunResult`;
  `RunResult.crash` models a Rust panic (an out-of-bounds slice);
* `std::io::Read` streams are modelled by passing the remaining input
  list explicitly; end of list models end of stream
  (`read` returning 0 / `read_exact` hitting `UnexpectedEof`).

Definitions are translated from the repository sources
(`src/error.rs`, `src/utils.rs`, `src/bin_format.rs`, `src/csv_format.rs`,
`src/text_format.rs`, `src/tx_format.rs`, `src/transaction.rs`).
The module `constants.rs` is declared in `lib.rs` but its file is not in
the snapshot; its string constants are modelled from the spec (and the
in-repo tests that use them).
-/

/-- Errors of the parsing library, from `src/error.rs` (`enum ParsError`). -/
inductive ParsError : Type where
  | IoError (msg : String)
  | WrongFormat (msg : String)
  | EndOfStream
deriving DecidableEq, Repr

/-- Outcome of running a fallible Rust function: normal result, returned
error, or aborted run (`crash` models a Rust panic, e.g. a slice index
out of bounds). -/
inductive RunResult (α : Type) : Type where
  | ok (a : α)
  | err (e : ParsError)
  | crash
deriving DecidableEq, Repr

/-- Lift an `Except` (Rust `Result` propagated with `?`) into `RunResult`. -/
def RunResult.ofExcept {α : Type} : Except ParsError α → RunResult α
  | .ok a => .ok a
  | .error e => .err e

/-- Whitespace as recognised by Rust's `str::trim` (restricted to the
ASCII whitespace characters, which are the only ones any claim uses). -/
def isRustWs (c : Char) : Bool :=
  c = ' ' || c = '\t' || c = '\n' || c = '\r'

/-- Model of Rust `str::trim` on a character list. -/
def trimChars (cs : List Char) : List Char :=
  ((cs.dropWhile isRustWs).reverse.dropWhile isRustWs).reverse

/-- Decimal digit character for a digit value below 10. -/
def digitChar (d : Nat) : Char := Char.ofNat (48 + d)

/-- Little-endian decimal digits with an explicit step bound (`n`
itself suffices since `n / 10 < n`); agrees with `Nat.digits 10` (see
`natDigits_eq`) while remaining kernel-computable. -/
def natDigitsAux : Nat → Nat → List Nat
  | 0, _ => []
  | fuel + 1, n => if n = 0 then [] else n % 10 :: natDigitsAux fuel (n / 10)

/-- Little-endian decimal digits of `n`. -/
def natDigits (n : Nat) : List Nat := natDigitsAux n n

/-- Decimal rendering of an unsigned machine integer, as produced by
Rust's `Display` for `u64`/`u32` (`to_string`). -/
def natRender (n : Nat) : List Char :=
  if n = 0 then ['0'] else (natDigits n).reverse.map digitChar

/-- Decimal rendering of a signed machine integer (`i64`'s `Display`). -/
def intRender (a : Int) : List Char :=
  if a < 0 then '-' :: natRender a.natAbs else natRender a.toNat

/-- Digit-accumulating loop of Rust's `from_str_radix` for radix 10:
checked multiply/add; a non-digit is an `InvalidDigit` error, exceeding
`limit - 1` is an overflow error with message `ovMsg`. -/
def parseDigitsAcc (limit : Nat) (ovMsg : String) : Nat → List Char → Except ParsError Nat
  | acc, [] => .ok acc
  | acc, c :: rest =>
    if c.isDigit then
      let acc' := acc * 10 + (c.toNat - 48)
      if acc' < limit then parseDigitsAcc limit ovMsg acc' rest
      else .error (.WrongFormat ovMsg)
    else .error (.WrongFormat "invalid digit found in string")

/-- Model of Rust `str::parse::<uN>` (sign handling of `from_str_radix`
for an unsigned target, then the digit loop; all failures shown as the
`ParsError::WrongFormat` they convert to via `From<ParseIntError>`). -/
def parseUnsigned (limit : Nat) (s : String) : Except ParsError Nat :=
  match s.data with
  | [] => .error (.WrongFormat "cannot parse integer from empty string")
  | c :: rest =>
    if c = '+' then
      if rest = [] then .error (.WrongFormat "invalid digit found in string")
      else parseDigitsAcc limit "number too large to fit in target type" 0 rest
    else if c = '-' then .error (.WrongFormat "invalid digit found in string")
    else parseDigitsAcc limit "number too large to fit in target type" 0 (c :: rest)

/-- Model of Rust `str::parse::<i64>`. -/
def parseI64 (s : String) : Except ParsError Int :=
  match s.data with
  | [] => .error (.WrongFormat "cannot parse integer from empty string")
  | c :: rest =>
    if c = '+' then
      if rest = [] then .error (.WrongFormat "invalid digit found in string")
      else match parseDigitsAcc (2 ^ 63) "number too large to fit in target type" 0 rest with
        | .ok n => .ok (n : Int)
        | .error e => .error e
    else if c = '-' then
      if rest = [] then .error (.WrongFormat "invalid digit found in string")
      else match parseDigitsAcc (2 ^ 63 + 1) "number too small to fit in target type" 0 rest with
        | .ok n => .ok (-(n : Int))
        | .error e => .error e
    else match parseDigitsAcc (2 ^ 63) "number too large to fit in target type" 0 (c :: rest) with
      | .ok n => .ok (n : Int)
      | .error e => .error e

/-- Model of Rust `str::parse::<u64>`. -/
def parseU64 (s : String) : Except ParsError Nat := parseUnsigned (2 ^ 64) s

/-- Value accumulated by the digit loop over a digit-value list. -/
def digitsVal (acc : Nat) (l : List Nat) : Nat :=
  l.foldl (fun a d => a * 10 + d) acc

/-! Big-endian machine-integer byte encoding (`to_be_bytes` / `from_be_bytes`). -/

/-- Big-endian byte list of width `k` for value `v` (Rust `to_be_bytes`). -/
def beBytes : Nat → Nat → List Nat
  | 0, _ => []
  | k + 1, v => beBytes k (v / 256) ++ [v % 256]

/-- Value of a big-endian byte list (Rust `from_be_bytes`). -/
def beVal (bs : List Nat) : Nat := bs.foldl (fun a b => a * 256 + b) 0

/-- Two's-complement reinterpretation of an `i64` as a `u64`
(Rust's `as u64`). -/
def i64ToU64 (a : Int) : Nat := (a % 2 ^ 64).toNat

/-- Two's-complement reinterpretation of a `u64` as an `i64`
(Rust's `as i64`). -/
def u64ToI64 (v : Nat) : Int := if v < 2 ^ 63 then (v : Int) else (v : Int) - 2 ^ 64

/-! UTF-8 encoding (Rust `str::as_bytes` / `std::str::from_utf8`),
modelled at the interface of the standard library. -/

/-- UTF-8 bytes of one character. -/
def utf8EncodeChar (c : Char) : List Nat :=
  let n := c.toNat
  if n < 0x80 then [n]
  else if n < 0x800 then [0xC0 + n / 64, 0x80 + n % 64]
  else if n < 0x10000 then [0xE0 + n / 4096, 0x80 + n / 64 % 64, 0x80 + n % 64]
  else [0xF0 + n / 262144, 0x80 + n / 4096 % 64, 0x80 + n / 64 % 64, 0x80 + n % 64]

/-- UTF-8 bytes of a string (Rust `as_bytes`). -/
def utf8Encode (cs : List Char) : List Nat := (cs.map utf8EncodeChar).flatten

/-- UTF-8 byte length of a string (Rust `str::len`). -/
def utf8Len (cs : List Char) : Nat := (utf8Encode cs).length

/-- Continuation handling for a 2-byte UTF-8 sequence. -/
def utf8Cont1 (b : Nat) : List Nat → Option (Char × Nat)
  | b1 :: _ =>
    if 0x80 ≤ b1 ∧ b1 < 0xC0 then
      some (Char.ofNat ((b - 0xC0) * 64 + (b1 - 0x80)), 2)
    else none
  | [] => none

/-- Continuation handling for a 3-byte UTF-8 sequence. -/
def utf8Cont2 (b : Nat) : List Nat → Option (Char × Nat)
  | b1 :: b2 :: _ =>
    let n := (b - 0xE0) * 4096 + (b1 - 0x80) * 64 + (b2 - 0x80)
    if 0x80 ≤ b1 ∧ b1 < 0xC0 ∧ 0x80 ≤ b2 ∧ b2 < 0xC0 ∧ 0x800 ≤ n ∧
        ¬(0xD800 ≤ n ∧ n < 0xE000) then
      some (Char.ofNat n, 3)
    else none
  | _ => none

/-- Continuation handling for a 4-byte UTF-8 sequence. -/
def utf8Cont3 (b : Nat) : List Nat → Option (Char × Nat)
  | b1 :: b2 :: b3 :: _ =>
    let n := (b - 0xF0) * 262144 + (b1 - 0x80) * 4096 + (b2 - 0x80) * 64 + (b3 - 0x80)
    if 0x80 ≤ b1 ∧ b1 < 0xC0 ∧ 0x80 ≤ b2 ∧ b2 < 0xC0 ∧ 0x80 ≤ b3 ∧ b3 < 0xC0 ∧
        0x10000 ≤ n ∧ n < 0x110000 then
      some (Char.ofNat n, 4)
    else none
  | _ => none

/-- Decode the first UTF-8 scalar of a byte list: the character and the
number of bytes consumed; `none` on empty input or malformed bytes
(bad lead or continuation byte, overlong form, surrogate, out of range). -/
def utf8DecodeFirst : List Nat → Option (Char × Nat)
  | [] => none
  | b :: rest =>
    if b < 0x80 then some (Char.ofNat b, 1)
    else if b < 0xC2 then none
    else if b < 0xE0 then utf8Cont1 b rest
    else if b < 0xF0 then utf8Cont2 b rest
    else if b < 0xF5 then utf8Cont3 b rest
    else none

/-- Recursion core of UTF-8 decoding: `fuel` bounds the number of
decoded characters; since every scalar consumes at least one byte,
`fuel = l.length` always suffices (see `utf8DecodeAux_fuel`). -/
def utf8DecodeAux : Nat → List Nat → Option (List Char)
  | _, [] => some []
  | 0, _ :: _ => none
  | fuel + 1, b :: rest =>
    match utf8DecodeFirst (b :: rest) with
    | some (c, k) => (utf8DecodeAux fuel ((b :: rest).drop k)).map (fun cs => c :: cs)
    | none => none

/-- Strict UTF-8 decoding of a whole byte buffer
(Rust `std::str::from_utf8`). -/
def utf8Decode (l : List Nat) : Option (List Char) := utf8DecodeAux l.length l

/-! Transaction model (`src/transaction.rs` / `src/finance_data.rs` — the
two files declare identical types) and the string constants of the
missing `constants.rs` module. -/

/-- Transaction type enumeration (`enum TxType`). -/
inductive TxType : Type where
  | Deposit
  | Transfer
  | Withdrawal
deriving DecidableEq, Repr

/-- Transaction status enumeration (`enum TxStatus`). -/
inductive TxStatus : Type where
  | Success
  | Failure
  | Pending
deriving DecidableEq, Repr

/-- Valid range of `chrono::DateTime::from_timestamp_millis`, modelled at
the interface of the external `chrono` crate: the earliest/latest UTC
instants expressible, in milliseconds since the epoch. -/
def chronoMinMillis : Int := -8334601228800000

/-- Latest millisecond timestamp accepted by
`chrono::DateTime::from_timestamp_millis`. -/
def chronoMaxMillis : Int := 8210266876799999

/-- Model of `chrono::DateTime::from_timestamp_millis`: a `DateTime<Utc>`
at millisecond precision is represented by its millisecond timestamp. -/
def fromTimestampMillis (ms : Int) : Option Int :=
  if chronoMinMillis ≤ ms ∧ ms ≤ chronoMaxMillis then some ms else none

/-- The shared in-memory transaction model (`struct Transaction` in
`src/transaction.rs`, identical to `struct FinanceData` in
`src/finance_data.rs`). `timestamp` is the `DateTime<Utc>` value
represented by its milliseconds-since-epoch (the codecs only ever
construct it from and reduce it to milliseconds). -/
structure FinanceData : Type where
  tx_id : Nat
  tx_type : TxType
  from_user_id : Nat
  to_user_id : Nat
  amount : Int
  timestamp : Int
  status : TxStatus
  description : String
deriving DecidableEq, Repr

/-- The `Transaction` type of `src/transaction.rs` is field-for-field the
`FinanceData` type. -/
abbrev Transaction : Type := FinanceData

/-- Well-formedness of a model value as the image of an actual Rust
`Transaction`: the unsigned ids fit in `u64`, the amount fits in `i64`,
and the timestamp is representable as a `chrono` instant. -/
def FinanceData.valid (d : FinanceData) : Prop :=
  d.tx_id < 2 ^ 64 ∧ d.from_user_id < 2 ^ 64 ∧ d.to_user_id < 2 ^ 64 ∧
  -(2 ^ 63) ≤ d.amount ∧ d.amount < 2 ^ 63 ∧
  chronoMinMillis ≤ d.timestamp ∧ d.timestamp ≤ chronoMaxMillis

instance (d : FinanceData) : Decidable d.valid := by
  unfold FinanceData.valid
  infer_instance

/-- Modelled from the spec: the `constants.rs` module is declared in
`lib.rs` but missing from the snapshot; the spec (§4.2, §6) fixes the
header/key names, and the in-repo tests of `csv_format.rs` and
`text_format.rs` use these exact strings. Number of fields per record. -/
def CNT_VALUES : Nat := 8

/-- Modelled from the spec: field-name constant. -/
def TX_ID : String := "TX_ID"

/-- Modelled from the spec: field-name constant. -/
def TX_TYPE : String := "TX_TYPE"

/-- Modelled from the spec: field-name constant. -/
def FROM_USER_ID : String := "FROM_USER_ID"

/-- Modelled from the spec: field-name constant. -/
def TO_USER_ID : String := "TO_USER_ID"

/-- Modelled from the spec: field-name constant. -/
def AMOUNT : String := "AMOUNT"

/-- Modelled from the spec: field-name constant. -/
def TIMESTAMP : String := "TIMESTAMP"

/-- Modelled from the spec: field-name constant. -/
def STATUS : String := "STATUS"

/-- Modelled from the spec: field-name constant. -/
def DESCRIPTION : String := "DESCRIPTION"

/-- Modelled from the spec: enum token constant. -/
def DEPOSIT : String := "DEPOSIT"

/-- Modelled from the spec: enum token constant. -/
def TRANSFER : String := "TRANSFER"

/-- Modelled from the spec: enum token constant. -/
def WITHDRAWAL : String := "WITHDRAWAL"

/-- Modelled from the spec: enum token constant. -/
def SUCCESS : String := "SUCCESS"

/-- Modelled from the spec: enum token constant. -/
def FAILURE : String := "FAILURE"

/-- Modelled from the spec: enum token constant. -/
def PENDING : String := "PENDING"

/-- Model of `remove_quotes` from `src/utils.rs`: if the input starts and
ends with `"`, slice away the first and last byte (`input[1..len-1]`),
otherwise return the input unchanged. The slice `1..len-1` panics in
Rust when `len = 1` (start index past end index); that run is `none`. -/
def remove_quotes (s : String) : Option String :=
  if s.data.head? = some '"' ∧ s.data.getLast? = some '"' then
    if 2 ≤ s.data.length then some (String.mk ((s.data.drop 1).dropLast))
    else none
  else some s

/-- Quote-wrapping used by every encoder (`format!` with a quote on each
side of the description). -/
def quoteWrap (s : String) : String := String.mk ('"' :: s.data ++ ['"'])

/-! Binary codec, from `src/bin_format.rs`. -/

/-- Magic constant of the binary format. -/
def MAGIC : Nat := 0x5950424E

/-- Model of `Read::read_exact` on a byte-list stream: take `k` bytes or
fail; a truncated read is `io::ErrorKind::UnexpectedEof`, which the `?`
operator converts to `ParsError::EndOfStream` (see `src/error.rs`). -/
def readChunk (k : Nat) (s : List Nat) : Except ParsError (List Nat × List Nat) :=
  if k ≤ s.length then .ok (s.take k, s.drop k) else .error .EndOfStream

/-- On-wire record of the binary format (`struct BinFinanceRecord`). -/
structure BinFinanceRecord : Type where
  magic : Nat
  record_size : Nat
  tx_id : Nat
  tx_type : Nat
  from_user_id : Nat
  to_user_id : Nat
  amount : Int
  timestamp : Nat
  status : Nat
  desc_len : Nat
  description : String
deriving DecidableEq, Repr

/-- Model of `BinFinanceRecord::serialize`: big-endian fixed-width fields
followed by the description's UTF-8 bytes. -/
def BinFinanceRecord.serialize (r : BinFinanceRecord) : List Nat :=
  beBytes 4 r.magic ++ (beBytes 4 r.record_size ++ (beBytes 8 r.tx_id ++
  (beBytes 1 r.tx_type ++ (beBytes 8 r.from_user_id ++ (beBytes 8 r.to_user_id ++
  (beBytes 8 (i64ToU64 r.amount) ++ (beBytes 8 r.timestamp ++ (beBytes 1 r.status ++
  (beBytes 4 r.desc_len ++ utf8Encode r.description.data)))))))))

/-- Model of `BinFinanceRecord::deserialize`: sequential fixed-width
reads, magic check after the first read, then `desc_len` description
bytes decoded as UTF-8. -/
def BinFinanceRecord.deserialize (s : List Nat) :
    Except ParsError (BinFinanceRecord × List Nat) :=
  match readChunk 4 s with
  | .error e => .error e
  | .ok (mb, s) =>
    if beVal mb ≠ MAGIC then
      .error (.WrongFormat ("Неверный magic: " ++ String.mk (natRender (beVal mb))))
    else match readChunk 4 s with
    | .error e => .error e
    | .ok (szb, s) => match readChunk 8 s with
      | .error e => .error e
      | .ok (idb, s) => match readChunk 1 s with
        | .error e => .error e
        | .ok (tyb, s) => match readChunk 8 s with
          | .error e => .error e
          | .ok (fromb, s) => match readChunk 8 s with
            | .error e => .error e
            | .ok (tob, s) => match readChunk 8 s with
              | .error e => .error e
              | .ok (amb, s) => match readChunk 8 s with
                | .error e => .error e
                | .ok (tsb, s) => match readChunk 1 s with
                  | .error e => .error e
                  | .ok (stb, s) => match readChunk 4 s with
                    | .error e => .error e
                    | .ok (dlb, s) => match readChunk (beVal dlb) s with
                      | .error e => .error e
                      | .ok (db, s) => match utf8Decode db with
                        | none => .error (.WrongFormat "invalid utf-8 sequence")
                        | some cs =>
                          .ok ({ magic := beVal mb, record_size := beVal szb,
                                 tx_id := beVal idb, tx_type := beVal tyb,
                                 from_user_id := beVal fromb, to_user_id := beVal tob,
                                 amount := u64ToI64 (beVal amb), timestamp := beVal tsb,
                                 status := beVal stb, desc_len := beVal dlb,
                                 description := String.mk cs }, s)

/-- Model of `BinFinanceRecord::to_fin_data`: validate discriminants,
timestamp and quoting, then strip the quotes (`remove_quotes` can
panic, hence `RunResult`). -/
def BinFinanceRecord.to_fin_data (r : BinFinanceRecord) : RunResult FinanceData :=
  let ty : Option TxType :=
    if r.tx_type = 0 then some .Deposit
    else if r.tx_type = 1 then some .Transfer
    else if r.tx_type = 2 then some .Withdrawal
    else none
  match ty with
  | none => .err (.WrongFormat ("Wrong tx_type: " ++ String.mk (natRender r.tx_type)))
  | some tx_type =>
    let st : Option TxStatus :=
      if r.status = 0 then some .Success
      else if r.status = 1 then some .Failure
      else if r.status = 2 then some .Pending
      else none
    match st with
    | none => .err (.WrongFormat ("Wrong status: " ++ String.mk (natRender r.status)))
    | some status =>
      match fromTimestampMillis (u64ToI64 r.timestamp) with
      | none => .err (.WrongFormat ("Wrong timestamp: " ++ String.mk (natRender r.timestamp)))
      | some timestamp =>
        if r.description.data.head? = some '"' ∧ r.description.data.getLast? = some '"' then
          match remove_quotes r.description with
          | none => .crash
          | some description =>
            .ok { tx_id := r.tx_id, tx_type := tx_type, from_user_id := r.from_user_id,
                  to_user_id := r.to_user_id, amount := r.amount, timestamp := timestamp,
                  status := status, description := description }
        else .err (.WrongFormat ("Wrong description: " ++ r.description))

/-- Model of `BinFinanceRecord::from_fin_data`: discriminants from the
enums, `timestamp_millis() as u64`, quote-wrapped description,
`desc_len`/`record_size` recomputed (`as u32` truncates). -/
def BinFinanceRecord.from_fin_data (d : FinanceData) : BinFinanceRecord :=
  let tx_type : Nat := match d.tx_type with
    | .Deposit => 0
    | .Transfer => 1
    | .Withdrawal => 2
  let status : Nat := match d.status with
    | .Success => 0
    | .Failure => 1
    | .Pending => 2
  let description := quoteWrap d.description
  let descBytes := utf8Len description.data
  { magic := MAGIC,
    record_size := (8 + 1 + 8 + 8 + 8 + 8 + 1 + 4 + descBytes) % 2 ^ 32,
    tx_id := d.tx_id, tx_type := tx_type, from_user_id := d.from_user_id,
    to_user_id := d.to_user_id, amount := d.amount,
    timestamp := i64ToU64 d.timestamp, status := status,
    desc_len := descBytes % 2 ^ 32, description := description }

/-- Model of `BinReader::read_fin_data`: `EndOfStream` from the
deserializer is clean end-of-data (`Ok(None)`); other errors propagate. -/
def BinReader.read_fin_data (s : List Nat) : RunResult (Option FinanceData × List Nat) :=
  match BinFinanceRecord.deserialize s with
  | .error .EndOfStream => .ok (none, [])
  | .error e => .err e
  | .ok (r, rest) =>
    match r.to_fin_data with
    | .ok d => .ok (some d, rest)
    | .err e => .err e
    | .crash => .crash

/-- Model of `BinWriter::write_fin_data`: bytes appended to the output
stream for one record. -/
def BinWriter.write_fin_data (d : FinanceData) : List Nat :=
  (BinFinanceRecord.from_fin_data d).serialize

/-! CSV codec, from `src/csv_format.rs`. The byte-level tokenizer is
modelled on characters (see the header comment); `read_byte` returning
zero bytes at end of stream raises `EndOfStream`, which the tokenizer
turns into its `EndOfStream` token. -/

/-- Expected header tokens (`HEADER_VALUES`), in this exact order. -/
def HEADER_VALUES : List String :=
  [TX_ID, TX_TYPE, FROM_USER_ID, TO_USER_ID, AMOUNT, TIMESTAMP, STATUS, DESCRIPTION]

/-- Tokens of the CSV row lexer (`enum Token`). -/
inductive CsvToken : Type where
  | Value (s : String)
  | EndOfLine (s : String)
  | EndOfStream (r : Option String)
deriving DecidableEq, Repr

/-- States of the CSV row lexer (`enum ParserState`). -/
inductive CsvParserState : Type where
  | WaitStartRecord
  | WaitStartValue
  | WaitEndRegular
  | WaitEndString
  | WaitEscaped
deriving DecidableEq, Repr

/-- Model of `Parser::get_next_token`: the byte-at-a-time loop with its
accumulated buffer `buf`; returns the produced token, the parser state
left behind, and the unread remainder of the stream. -/
def csvGetToken (st : CsvParserState) (buf : List Char) :
    List Char → CsvToken × CsvParserState × List Char
  | [] =>
    let res := trimChars buf
    if res = [] then (.EndOfStream none, st, [])
    else (.EndOfStream (some (String.mk res)), st, [])
  | c :: rest =>
    match st with
    | .WaitStartRecord =>
      if c = ' ' ∨ c = '\n' then csvGetToken st buf rest
      else if c = '"' then csvGetToken .WaitEndString (buf ++ [c]) rest
      else csvGetToken .WaitEndRegular (buf ++ [c]) rest
    | .WaitStartValue =>
      if c = ' ' then csvGetToken st buf rest
      else if c = '"' then csvGetToken .WaitEndString (buf ++ [c]) rest
      else csvGetToken .WaitEndRegular (buf ++ [c]) rest
    | .WaitEndRegular =>
      if c = ',' then (.Value (String.mk (trimChars buf)), .WaitStartValue, rest)
      else if c = '\n' then (.EndOfLine (String.mk (trimChars buf)), .WaitStartRecord, rest)
      else csvGetToken st (buf ++ [c]) rest
    | .WaitEndString =>
      if c = '\\' then csvGetToken .WaitEscaped buf rest
      else if c = '"' then csvGetToken .WaitEndRegular (buf ++ [c]) rest
      else csvGetToken st (buf ++ [c]) rest
    | .WaitEscaped => csvGetToken .WaitEndString (buf ++ [c]) rest

/-- How a call of `read_values` came to return: a terminated line, end of
stream with no pending data, or end of stream flushing a pending
partial value. -/
inductive RowEnd : Type where
  | line
  | eofEmpty
  | eofRem
deriving DecidableEq, Repr

/-- Recursion core of `CsvTxReader::read_values` with a step bound
(every produced `Value` token consumes at least one character, so
`input.length + 1` steps always suffice). -/
def csvReadValuesAux : Nat → CsvParserState → List Char →
    List String × CsvParserState × List Char × RowEnd
  | 0, st, input => ([], st, input, .eofEmpty)
  | fuel + 1, st, input =>
    match csvGetToken st [] input with
    | (.Value v, st2, rest) =>
      let r := csvReadValuesAux fuel st2 rest
      (v :: r.1, r.2.1, r.2.2.1, r.2.2.2)
    | (.EndOfLine v, st2, rest) => ([v], st2, rest, .line)
    | (.EndOfStream none, st2, rest) => ([], st2, rest, .eofEmpty)
    | (.EndOfStream (some r), st2, rest) => ([r], st2, rest, .eofRem)

/-- Model of `CsvTxReader::read_values`: collect `Value` tokens until an
`EndOfLine` or `EndOfStream` token, flushing the end-of-stream
remainder when present. -/
def csvReadValues (st : CsvParserState) (input : List Char) :
    List String × CsvParserState × List Char × RowEnd :=
  csvReadValuesAux (input.length + 1) st input

/-- Canonical column map pairs (`header: HashMap<String, usize>` built by
enumerating `HEADER_VALUES`; both reader and writer only ever hold this
map). -/
def headerPairs : List (String × Nat) :=
  [(TX_ID, 0), (TX_TYPE, 1), (FROM_USER_ID, 2), (TO_USER_ID, 3),
   (AMOUNT, 4), (TIMESTAMP, 5), (STATUS, 6), (DESCRIPTION, 7)]

/-- Index lookup in the canonical column map (`header[KEY]`). -/
def headerIdx (k : String) : Nat := ((headerPairs.lookup k).getD 0)

/-- Field of a row by column name (`self.fields[header[KEY]]`). -/
def fieldAt (fields : List String) (k : String) : String :=
  fields.getD (headerIdx k) ""

/-- Model of `CsvTxRecord::to_transaction` against the canonical header
map (the only map the reader ever constructs): field-count check, then
field-by-field parsing; `remove_quotes` can panic, hence `RunResult`. -/
def CsvTxRecord.to_transaction (fields : List String) : RunResult Transaction :=
  if fields.length ≠ 8 then
    .err (.WrongFormat "Количество полей не соответствует заголовку")
  else
    match parseU64 (fieldAt fields TX_ID) with
    | .error e => .err e
    | .ok tx_id =>
      let tyTok := fieldAt fields TX_TYPE
      let ty : Option TxType :=
        if tyTok = DEPOSIT then some .Deposit
        else if tyTok = TRANSFER then some .Transfer
        else if tyTok = WITHDRAWAL then some .Withdrawal
        else none
      match ty with
      | none => .err (.WrongFormat ("Неверный формат TX_TYPE: " ++ tyTok))
      | some tx_type =>
        match parseU64 (fieldAt fields FROM_USER_ID) with
        | .error e => .err e
        | .ok from_user_id =>
          match parseU64 (fieldAt fields TO_USER_ID) with
          | .error e => .err e
          | .ok to_user_id =>
            match parseI64 (fieldAt fields AMOUNT) with
            | .error e => .err e
            | .ok amount =>
              match parseU64 (fieldAt fields TIMESTAMP) with
              | .error e => .err e
              | .ok tsu =>
                match fromTimestampMillis (u64ToI64 tsu) with
                | none => .err (.WrongFormat ("Wrong timestamp: " ++
                    String.mk (natRender tsu)))
                | some timestamp =>
                  let stTok := fieldAt fields STATUS
                  let st : Option TxStatus :=
                    if stTok = SUCCESS then some .Success
                    else if stTok = FAILURE then some .Failure
                    else if stTok = PENDING then some .Pending
                    else none
                  match st with
                  | none => .err (.WrongFormat ("Неверный формат STATUS: " ++ stTok))
                  | some status =>
                    let descTok := fieldAt fields DESCRIPTION
                    if descTok.data.head? = some '"' ∧
                        descTok.data.getLast? = some '"' then
                      match remove_quotes descTok with
                      | none => .crash
                      | some description =>
                        .ok { tx_id := tx_id, tx_type := tx_type,
                              from_user_id := from_user_id, to_user_id := to_user_id,
                              amount := amount, timestamp := timestamp,
                              status := status, description := description }
                    else .err (.WrongFormat ("Wrong description: " ++ descTok))

/-- Model of `CsvTxRecord::from_transaction` against the canonical header
map (the writer's own map, built from `HEADER_VALUES`): the eight
rendered fields in header order. -/
def CsvTxRecord.from_transaction (t : Transaction) : List String :=
  [String.mk (natRender t.tx_id),
   (match t.tx_type with
    | .Deposit => DEPOSIT
    | .Transfer => TRANSFER
    | .Withdrawal => WITHDRAWAL),
   String.mk (natRender t.from_user_id),
   String.mk (natRender t.to_user_id),
   String.mk (intRender t.amount),
   String.mk (natRender (i64ToU64 t.timestamp)),
   (match t.status with
    | .Success => SUCCESS
    | .Failure => FAILURE
    | .Pending => PENDING),
   quoteWrap t.description]

/-- Comma-joined rendering of a field list (the accumulation loop of
`CsvTxRecord::serialize` and `CsvTxWriter::write_header`). -/
def joinComma : List String → List Char
  | [] => []
  | [f] => f.data
  | f :: rest => f.data ++ (',' :: joinComma rest)

/-- Model of `CsvTxRecord::serialize`: the joined fields plus a newline. -/
def CsvTxRecord.serialize (fields : List String) : List Char :=
  joinComma fields ++ ['\n']

/-- The header line written once by `CsvTxWriter::write_header`. -/
def csvHeaderLine : List Char := CsvTxRecord.serialize HEADER_VALUES

/-- Reader state of `CsvTxReader`: whether the header has been read and
checked (the map itself is always the canonical one), plus the lexer
state. -/
structure CsvReaderState : Type where
  hasHeader : Bool
  pstate : CsvParserState
deriving DecidableEq, Repr

/-- Debug rendering of a `Vec<String>` as used in the bad-header error
message (`format!` with the `{:?}` specifier). -/
def renderStrList (l : List String) : String :=
  "[" ++ String.intercalate ", " (l.map (fun s => "\"" ++ s ++ "\"")) ++ "]"

/-- Model of `CsvTxReader::read_header`: read one line of values and
compare with `HEADER_VALUES`. -/
def CsvTxReader.read_header (p : CsvParserState) (input : List Char) :
    Except ParsError (CsvParserState × List Char) :=
  let r := csvReadValues p input
  if r.1 ≠ HEADER_VALUES then
    .error (.WrongFormat ("Неверный заголовок: " ++ renderStrList r.1))
  else .ok (r.2.1, r.2.2.1)

/-- Row step shared by `read_transaction` after the header is present:
read one row; an empty field list is clean end-of-data, otherwise the
row is decoded. -/
def CsvTxReader.read_row (p : CsvParserState) (input : List Char) :
    RunResult (Option Transaction × CsvReaderState × List Char) :=
  let r := csvReadValues p input
  if r.1 = [] then .ok (none, ⟨true, r.2.1⟩, r.2.2.1)
  else
    match CsvTxRecord.to_transaction r.1 with
    | .ok t => .ok (some t, ⟨true, r.2.1⟩, r.2.2.1)
    | .err e => .err e
    | .crash => .crash

/-- Model of `CsvTxReader::read_transaction`: read and check the header
on first use, then read and decode one row. -/
def CsvTxReader.read_transaction (st : CsvReaderState) (input : List Char) :
    RunResult (Option Transaction × CsvReaderState × List Char) :=
  if st.hasHeader then CsvTxReader.read_row st.pstate input
  else
    match CsvTxReader.read_header st.pstate input with
    | .error e => .err e
    | .ok (p2, rest) => CsvTxReader.read_row p2 rest

/-- Fresh CSV reader (`CsvTxReader::new`). -/
def CsvTxReader.initState : CsvReaderState := ⟨false, .WaitStartRecord⟩

/-- Model of `CsvTxWriter::write_transaction` for the first record:
`write_header` emits the fixed header line, then the row is serialized. -/
def CsvTxWriter.write_first_transaction (t : Transaction) : List Char :=
  csvHeaderLine ++ CsvTxRecord.serialize (CsvTxRecord.from_transaction t)

/-- Shape of a field rendering that the row lexer tokenizes back to its
trimmed self: either an unquoted value with no separator characters, or
a quote-wrapped value whose body has no backslash and no quote. -/
def csvFieldOk (s : List Char) : Prop :=
  (s ≠ [] ∧ (∀ c ∈ s, c ≠ ',' ∧ c ≠ '\n') ∧ s.head? ≠ some ' ' ∧
    s.head? ≠ some '\n' ∧ s.head? ≠ some '"') ∨
  (∃ d, s = '"' :: (d ++ ['"']) ∧ ∀ c ∈ d, c ≠ '\\' ∧ c ≠ '"')

/-- Character stream of a comma-separated, newline-terminated row of
fields followed by the rest of the stream. -/
def fieldsChars : List String → List Char → List Char
  | [], tail => tail
  | f :: rest, tail =>
    f.data ++ (if rest = [] then '\n' :: tail else ',' :: fieldsChars rest tail)

/-! Text codec, from `src/text_format.rs`. -/

/-- Tokens of the text block lexer (`enum Token` of `text_format.rs`). -/
inductive TextToken : Type where
  | KeyValue (k v : String)
  | SplitRecords
  | EndOfStream (r : Option (String × String))
deriving DecidableEq, Repr

/-- State to resume after a comment (`enum PrevParserState`). -/
inductive PrevTextState : Type where
  | WaitStartRecord
  | WaitStartKey
deriving DecidableEq, Repr

/-- States of the text block lexer (`enum ParserState` of
`text_format.rs`). -/
inductive TextParserState : Type where
  | WaitStartRecord
  | WaitStartKey
  | WaitEndKey
  | WaitStartValue
  | WaitEndRegular
  | WaitEndString
  | WaitEndComment (prev : PrevTextState)
  | WaitEscaped
deriving DecidableEq, Repr

/-- State restored when the comment's terminating newline is seen. -/
def prevToState : PrevTextState → TextParserState
  | .WaitStartRecord => .WaitStartRecord
  | .WaitStartKey => .WaitStartKey

/-- Model of `Parser::get_next_token` of the text format: byte loop with
the accumulated key and value buffers. -/
def textGetToken (st : TextParserState) (kb vb : List Char) :
    List Char → TextToken × TextParserState × List Char
  | [] =>
    let kt := trimChars kb
    let vt := trimChars vb
    if kt = [] ∧ vt = [] then (.EndOfStream none, st, [])
    else (.EndOfStream (some (String.mk kt, String.mk vt)), st, [])
  | c :: rest =>
    match st with
    | .WaitStartRecord =>
      if c = ' ' ∨ c = '\n' then textGetToken st kb vb rest
      else if c = '#' then textGetToken (.WaitEndComment .WaitStartRecord) kb vb rest
      else textGetToken .WaitEndKey (kb ++ [c]) vb rest
    | .WaitStartKey =>
      if c = ' ' then textGetToken st kb vb rest
      else if c = '#' then textGetToken (.WaitEndComment .WaitStartKey) kb vb rest
      else if c = '\n' then (.SplitRecords, .WaitStartRecord, rest)
      else textGetToken .WaitEndKey (kb ++ [c]) vb rest
    | .WaitEndKey =>
      if c = ':' then textGetToken .WaitStartValue kb vb rest
      else textGetToken st (kb ++ [c]) vb rest
    | .WaitStartValue =>
      if c = ' ' then textGetToken st kb vb rest
      else if c = '"' then textGetToken .WaitEndString kb (vb ++ [c]) rest
      else textGetToken .WaitEndRegular kb (vb ++ [c]) rest
    | .WaitEndRegular =>
      if c = '\n' then
        (.KeyValue (String.mk (trimChars kb)) (String.mk (trimChars vb)),
          .WaitStartKey, rest)
      else textGetToken st kb (vb ++ [c]) rest
    | .WaitEndString =>
      if c = '\\' then textGetToken .WaitEscaped kb vb rest
      else if c = '"' then textGetToken .WaitEndRegular kb (vb ++ [c]) rest
      else textGetToken st kb (vb ++ [c]) rest
    | .WaitEscaped => textGetToken .WaitEndString kb (vb ++ [c]) rest
    | .WaitEndComment prev =>
      if c = '\n' then textGetToken (prevToState prev) kb vb rest
      else textGetToken st kb vb rest

/-- Insertion into the accumulated field map (`HashMap::insert`: a later
value for an existing key overwrites the earlier one). -/
def insertField (fields : List (String × String)) (k v : String) :
    List (String × String) :=
  match fields with
  | [] => [(k, v)]
  | (k0, v0) :: rest =>
    if k0 = k then (k, v) :: rest else (k0, v0) :: insertField rest k v

/-- Folding a list of key-value tokens into the field map, as the
`read_fin_data` loop does. -/
def textInsertAll (fields : List (String × String))
    (kvs : List (String × String)) : List (String × String) :=
  kvs.foldl (fun f kv => insertField f kv.1 kv.2) fields

/-- Recursion core of the `TextReader::read_fin_data` collection loop
with a step bound. -/
def textCollectAux : Nat → TextParserState → List (String × String) →
    List Char → List (String × String) × TextParserState × List Char
  | 0, st, fields, input => (fields, st, input)
  | fuel + 1, st, fields, input =>
    match textGetToken st [] [] input with
    | (.KeyValue k v, st2, rest) => textCollectAux fuel st2 (insertField fields k v) rest
    | (.SplitRecords, st2, rest) => (fields, st2, rest)
    | (.EndOfStream none, st2, rest) => (fields, st2, rest)
    | (.EndOfStream (some (k, v)), st2, rest) => (insertField fields k v, st2, rest)

/-- The field-collection loop of `TextReader::read_fin_data`. -/
def textCollect (st : TextParserState) (fields : List (String × String))
    (input : List Char) : List (String × String) × TextParserState × List Char :=
  textCollectAux (input.length + 1) st fields input

/-- Deterministic rendering of the field map for the record-format error
message (`format!` with `{:?}` on the `HashMap`; the real map's debug
order is unspecified, the model renders in the map's list order). -/
def renderFields (fields : List (String × String)) : String :=
  "\x7b" ++ String.intercalate ", "
    (fields.map (fun kv => "\"" ++ kv.1 ++ "\": \"" ++ kv.2 ++ "\"")) ++ "\x7d"

/-- The field-count mismatch message of `TextFinanceRecord::to_fin_data`. -/
def countMsg (fields : List (String × String)) : String :=
  "Неверрный формат записи: " ++ renderFields fields

/-- The missing-record message (`"Отсутствует запись: ..."`). -/
def missingMsg (k : String) : String := "Отсутствует запись: " ++ k

/-- The `match val.as_str()` over the transaction-type tokens of the
text decoder. -/
def parseTxTypeTok (s : String) : Option TxType :=
  if s = DEPOSIT then some .Deposit
  else if s = TRANSFER then some .Transfer
  else if s = WITHDRAWAL then some .Withdrawal
  else none

/-- The `match val.as_str()` over the status tokens of the text decoder. -/
def parseStatusTok (s : String) : Option TxStatus :=
  if s = SUCCESS then some .Success
  else if s = FAILURE then some .Failure
  else if s = PENDING then some .Pending
  else none

/-- Field decoding of `TextFinanceRecord::to_fin_data` after the count
check: sequential lookups and parses in source order. Note the source
quirk: a missing `TX_TYPE` is reported with the `TX_ID` name (the
`format!` in that arm interpolates the `TX_ID` constant). -/
def textFieldsDecode (fields : List (String × String)) : RunResult FinanceData :=
  match fields.lookup TX_ID with
  | none => .err (.WrongFormat (missingMsg TX_ID))
  | some idTok =>
    match parseU64 idTok with
    | .error e => .err e
    | .ok tx_id =>
      match fields.lookup TX_TYPE with
      | none => .err (.WrongFormat (missingMsg TX_ID))
      | some tyTok =>
        match parseTxTypeTok tyTok with
        | none => .err (.WrongFormat ("Неверный тип транзакции: " ++ tyTok))
        | some tx_type =>
          match fields.lookup FROM_USER_ID with
          | none => .err (.WrongFormat (missingMsg FROM_USER_ID))
          | some fuTok =>
            match parseU64 fuTok with
            | .error e => .err e
            | .ok from_user_id =>
              match fields.lookup TO_USER_ID with
              | none => .err (.WrongFormat (missingMsg TO_USER_ID))
              | some tuTok =>
                match parseU64 tuTok with
                | .error e => .err e
                | .ok to_user_id =>
                  match fields.lookup AMOUNT with
                  | none => .err (.WrongFormat (missingMsg AMOUNT))
                  | some amTok =>
                    match parseI64 amTok with
                    | .error e => .err e
                    | .ok amount =>
                      match fields.lookup TIMESTAMP with
                      | none => .err (.WrongFormat (missingMsg TIMESTAMP))
                      | some tsTok =>
                        match parseU64 tsTok with
                        | .error e => .err e
                        | .ok tsu =>
                          match fromTimestampMillis (u64ToI64 tsu) with
                          | none => .err (.WrongFormat
                              ("Неверный формат времени: " ++ String.mk (natRender tsu)))
                          | some timestamp =>
                            match fields.lookup STATUS with
                            | none => .err (.WrongFormat (missingMsg STATUS))
                            | some stTok =>
                              match parseStatusTok stTok with
                              | none => .err (.WrongFormat
                                  ("Неверный статус транзакции: " ++ stTok))
                              | some status =>
                                match fields.lookup DESCRIPTION with
                                | none => .err (.WrongFormat (missingMsg DESCRIPTION))
                                | some descTok =>
                                  if descTok.data.head? = some '"' ∧
                                      descTok.data.getLast? = some '"' then
                                    match remove_quotes descTok with
                                    | none => .crash
                                    | some description =>
                                      .ok { tx_id := tx_id, tx_type := tx_type,
                                            from_user_id := from_user_id,
                                            to_user_id := to_user_id,
                                            amount := amount, timestamp := timestamp,
                                            status := status, description := description }
                                  else .err (.WrongFormat
                                      ("Wrong description: " ++ descTok))

/-- Model of `TextFinanceRecord::to_fin_data`: the completed block must
have exactly `CNT_VALUES` fields (the distinct-key count of the map),
then the fields are decoded. -/
def TextFinanceRecord.to_fin_data (fields : List (String × String)) :
    RunResult FinanceData :=
  if fields.length ≠ CNT_VALUES then .err (.WrongFormat (countMsg fields))
  else textFieldsDecode fields

/-- Model of `TextFinanceRecord::from_fin_data`: the eight key-value
pairs, in the source's insertion order. -/
def TextFinanceRecord.from_fin_data (d : FinanceData) : List (String × String) :=
  [(TX_ID, String.mk (natRender d.tx_id)),
   (TX_TYPE, match d.tx_type with
    | .Deposit => DEPOSIT
    | .Transfer => TRANSFER
    | .Withdrawal => WITHDRAWAL),
   (FROM_USER_ID, String.mk (natRender d.from_user_id)),
   (TO_USER_ID, String.mk (natRender d.to_user_id)),
   (AMOUNT, String.mk (intRender d.amount)),
   (TIMESTAMP, String.mk (natRender (i64ToU64 d.timestamp))),
   (STATUS, match d.status with
    | .Success => SUCCESS
    | .Failure => FAILURE
    | .Pending => PENDING),
   (DESCRIPTION, quoteWrap d.description)]

/-- Model of `TextFinanceRecord::serialize`: one `key: value` line per
field followed by a blank terminator line. -/
def TextFinanceRecord.serialize (fields : List (String × String)) : List Char :=
  (fields.map (fun kv => kv.1.data ++ ':' :: ' ' :: (kv.2.data ++ ['\n']))).flatten ++ ['\n']

/-- Model of `TextReader::read_fin_data`: collect one block's fields;
an empty map is clean end-of-data, otherwise the block is decoded. -/
def TextReader.read_fin_data (st : TextParserState) (input : List Char) :
    RunResult (Option FinanceData × TextParserState × List Char) :=
  let r := textCollect st [] input
  if r.1 = [] then .ok (none, r.2.1, r.2.2)
  else
    match TextFinanceRecord.to_fin_data r.1 with
    | .ok d => .ok (some d, r.2.1, r.2.2)
    | .err e => .err e
    | .crash => .crash

/-- Model of `TextWriter::write_fin_data`. -/
def TextWriter.write_fin_data (d : FinanceData) : List Char :=
  TextFinanceRecord.serialize (TextFinanceRecord.from_fin_data d)

/-- Shape of a serialized key that the text lexer tokenizes back to its
trimmed self. -/
def textKeyOk (s : List Char) : Prop :=
  s ≠ [] ∧ (∀ c ∈ s, c ≠ ':') ∧ s.head? ≠ some ' ' ∧ s.head? ≠ some '\n' ∧
    s.head? ≠ some '#'

/-- Shape of a serialized value that the text lexer tokenizes back to
its trimmed self: an unquoted value with no newline, or a quote-wrapped
value whose body has no backslash and no quote. -/
def textValOk (s : List Char) : Prop :=
  (s ≠ [] ∧ (∀ c ∈ s, c ≠ '\n') ∧ s.head? ≠ some ' ' ∧ s.head? ≠ some '"') ∨
  (∃ d, s = '"' :: (d ++ ['"']) ∧ ∀ c ∈ d, c ≠ '\\' ∧ c ≠ '"')

/-- Character stream of a list of `key: value` lines followed by the
rest of the stream. -/
def linesChars : List (String × String) → List Char → List Char
  | [], tail => tail
  | kv :: rest, tail => kv.1.data ++ ':' :: ' ' :: (kv.2.data ++ '\n' :: linesChars rest tail)

/-- Trimming both components of a key-value pair. -/
def trimPair (kv : String × String) : String × String :=
  (String.mk (trimChars kv.1.data), String.mk (trimChars kv.2.data))

/-- The value of the last `key: value` line for a given key in a token
list, if any. -/
def lastOcc (kvs : List (String × String)) (k : String) : Option String :=
  (kvs.reverse.find? (fun kv => kv.1 == k)).map Prod.snd

/-! Format dispatcher, from `src/tx_format.rs`. -/

/-- `const CSV_FORMAT` of `tx_format.rs`. -/
def CSV_FORMAT : String := "csv"

/-- `const TEXT_FORMAT` of `tx_format.rs`. -/
def TEXT_FORMAT : String := "text"

/-- `const BIN_FORMAT` of `tx_format.rs`. -/
def BIN_FORMAT : String := "bin"

/-- State of a constructed `TxReader`: the selected codec with its
reader state and its wrapped stream (the byte stream of the binary
codec is a byte list, the character-level csv/text models carry a char
list), or the `Unsupported` variant holding the format name. -/
inductive TxReaderInst : Type where
  | Csv (st : CsvReaderState) (stream : List Char)
  | Text (st : TextParserState) (stream : List Char)
  | Bin (stream : List Nat)
  | Unsupported (name : String)
deriving DecidableEq, Repr

/-- Model of `TxReader::new`: the `match fin_format` over the three
format-name constants; every sub-reader constructor returns `Ok`, so
construction always succeeds. -/
def TxReader.new (fin_format : String) (chars : List Char) (bytes : List Nat) :
    Except ParsError TxReaderInst :=
  .ok (if fin_format = CSV_FORMAT then .Csv CsvTxReader.initState chars
    else if fin_format = TEXT_FORMAT then .Text .WaitStartRecord chars
    else if fin_format = BIN_FORMAT then .Bin bytes
    else .Unsupported fin_format)

/-- Model of `TxReader::read_transaction`: dispatch on the selected
codec; the `Unsupported` arm fails with the stored name. -/
def TxReader.read_transaction (r : TxReaderInst) :
    RunResult (Option Transaction × TxReaderInst) :=
  match r with
  | .Csv st s =>
    match CsvTxReader.read_transaction st s with
    | .ok (res, st2, s2) => .ok (res, .Csv st2 s2)
    | .err e => .err e
    | .crash => .crash
  | .Text st s =>
    match TextReader.read_fin_data st s with
    | .ok (res, st2, s2) => .ok (res, .Text st2 s2)
    | .err e => .err e
    | .crash => .crash
  | .Bin s =>
    match BinReader.read_fin_data s with
    | .ok (res, s2) => .ok (res, .Bin s2)
    | .err e => .err e
    | .crash => .crash
  | .Unsupported name => .err (.WrongFormat name)

/-- State of a constructed `TxWriter`: the selected codec, or the
`Unsupported` variant holding the format name. -/
inductive TxWriterInst : Type where
  | Csv
  | Text
  | Bin
  | Unsupported (name : String)
deriving DecidableEq, Repr

/-- Model of `TxWriter::new`. -/
def TxWriter.new (fin_format : String) : Except ParsError TxWriterInst :=
  .ok (if fin_format = CSV_FORMAT then .Csv
    else if fin_format = TEXT_FORMAT then .Text
    else if fin_format = BIN_FORMAT then .Bin
    else .Unsupported fin_format)

/-- Output of one write: characters for the textual codecs, bytes for
the binary codec. -/
inductive TxOutput : Type where
  | chars (cs : List Char)
  | bytes (bs : List Nat)
deriving DecidableEq, Repr

/-- Model of `TxWriter::write_transaction` (for a writer's first write:
the csv arm emits the header line with the row); the `Unsupported` arm
fails with the stored name. -/
def TxWriter.write_transaction (w : TxWriterInst) (t : Transaction) :
    RunResult TxOutput :=
  match w with
  | .Csv => .ok (.chars (CsvTxWriter.write_first_transaction t))
  | .Text => .ok (.chars (TextWriter.write_fin_data t))
  | .Bin => .ok (.bytes (BinWriter.write_fin_data t))
  | .Unsupported name => .err (.WrongFormat name)

/-! Error conversions, from `src/error.rs`. -/

/-- `std::io::ErrorKind` at the granularity the conversion table needs:
`UnexpectedEof`, or any of the other kinds (indexed abstractly). -/
inductive IoErrorKind : Type where
  | UnexpectedEof
  | other (tag : Nat)
deriving DecidableEq, Repr

/-- Model of `impl From<io::Error> for ParsError`: the match on
`e.kind()`; `msg` stands for `format!("{e}")`. -/
def ParsError.fromIoError (kind : IoErrorKind) (msg : String) : ParsError :=
  match kind with
  | .UnexpectedEof => .EndOfStream
  | .other _ => .IoError msg

/-- Model of `impl From<std::str::Utf8Error> for ParsError`. -/
def ParsError.fromUtf8Error (msg : String) : ParsError := .WrongFormat msg

/-- Model of `impl From<std::num::ParseIntError> for ParsError`. -/
def ParsError.fromParseIntError (msg : String) : ParsError := .WrongFormat msg

/-- Character stream of a comma-separated row of fields ending at end
of stream with no final newline. -/
def fieldsCharsEof : List String → List Char
  | [] => []
  | [f] => f.data
  | f :: g :: rest => f.data ++ ',' :: fieldsCharsEof (g :: rest)

/-! Concrete fixtures: the test record of the source's test suite and
the streams exercised by the claim theorems. -/

/-- `fin_data1_for_test` of the source tests. -/
def tx1 : FinanceData where
  tx_id := 1000000000000000
  tx_type := .Deposit
  from_user_id := 0
  to_user_id := 9223372036854775807
  amount := 100
  timestamp := 1633036860000
  status := .Failure
  description := "Record number 1"

/-- `EXPECTED_BIN` of the source tests (71 bytes). -/
def expectedBin : List Nat :=
  [0x59, 0x50, 0x42, 0x4e, 0x00, 0x00, 0x00, 0x3f, 0x00, 0x03, 0x8d, 0x7e,
   0xa4, 0xc6, 0x80, 0x00, 0x00, 0x00, 0x00, 0x00, 0x00, 0x00, 0x00, 0x00,
   0x00, 0x7f, 0xff, 0xff, 0xff, 0xff, 0xff, 0xff, 0xff, 0x00, 0x00, 0x00,
   0x00, 0x00, 0x00, 0x00, 0x64, 0x00, 0x00, 0x01, 0x7c, 0x38, 0x94, 0xfa,
   0x60, 0x01, 0x00, 0x00, 0x00, 0x11, 0x22, 0x52, 0x65, 0x63, 0x6f, 0x72,
   0x64, 0x20, 0x6e, 0x75, 0x6d, 0x62, 0x65, 0x72, 0x20, 0x31, 0x22]

/-- A valid transaction whose description contains a backslash. -/
def txC1 : FinanceData where
  tx_id := 1
  tx_type := .Deposit
  from_user_id := 2
  to_user_id := 3
  amount := 4
  timestamp := 5
  status := .Success
  description := "a\\b"

/-- What the CSV codec actually returns for `txC1`: the backslash is
consumed as an escape by the quoted-string lexer. -/
def txC1res : FinanceData where
  tx_id := 1
  tx_type := .Deposit
  from_user_id := 2
  to_user_id := 3
  amount := 4
  timestamp := 5
  status := .Success
  description := "ab"

/-- A binary record whose description field is the single byte `"`
(`desc_len = 1`): magic, `record_size = 47`, all-zero fixed fields,
`desc_len = 1`, one `0x22` byte. -/
def crashStream : List Nat :=
  [0x59, 0x50, 0x42, 0x4e, 0x00, 0x00, 0x00, 0x2f,
   0, 0, 0, 0, 0, 0, 0, 0,
   0,
   0, 0, 0, 0, 0, 0, 0, 0,
   0, 0, 0, 0, 0, 0, 0, 0,
   0, 0, 0, 0, 0, 0, 0, 0,
   0, 0, 0, 0, 0, 0, 0, 0,
   0,
   0x00, 0x00, 0x00, 0x01,
   0x22]

/-- A text block with seven of the eight required keys (`DESCRIPTION`
is missing), terminated by a blank line. -/
def textMissingDesc : List Char :=
  ("TX_ID: 1\nTX_TYPE: DEPOSIT\nFROM_USER_ID: 2\nTO_USER_ID: 3\n" ++
   "AMOUNT: 4\nTIMESTAMP: 5\nSTATUS: SUCCESS\n\n").data

/-- The field map collected from `textMissingDesc`. -/
def textMissingDescFields : List (String × String) :=
  [("TX_ID", "1"), ("TX_TYPE", "DEPOSIT"), ("FROM_USER_ID", "2"),
   ("TO_USER_ID", "3"), ("AMOUNT", "4"), ("TIMESTAMP", "5"),
   ("STATUS", "SUCCESS")]

/-- A text block with eight distinct keys where the unexpected key
`FOO` stands in place of `TX_TYPE`. -/
def textExtraKey : List Char :=
  ("TX_ID: 1\nFOO: DEPOSIT\nFROM_USER_ID: 2\nTO_USER_ID: 3\n" ++
   "AMOUNT: 4\nTIMESTAMP: 5\nSTATUS: SUCCESS\nDESCRIPTION: \"x\"\n\n").data

/-- A complete text block in which `TX_ID` appears twice; the later
occurrence carries the non-numeric value `abc`. -/
def textDupKey : List Char :=
  ("TX_ID: 1\nTX_TYPE: DEPOSIT\nFROM_USER_ID: 2\nTO_USER_ID: 3\n" ++
   "AMOUNT: 4\nTIMESTAMP: 5\nSTATUS: SUCCESS\nDESCRIPTION: \"x\"\n" ++
   "TX_ID: abc\n\n").data

/-- A duplicate-key token list whose distinct-key set is the eight
required keys. -/
def dupTokens : List (String × String) :=
  [("TX_ID", "1"), ("TX_TYPE", "DEPOSIT"), ("FROM_USER_ID", "2"),
   ("TO_USER_ID", "3"), ("AMOUNT", "4"), ("TIMESTAMP", "5"),
   ("STATUS", "SUCCESS"), ("DESCRIPTION", "\"x\""), ("TX_ID", "7")]

/-- An eight-field map with no `TX_ID` entry. -/
def fieldsNoTxId : List (String × String) :=
  [("FOO", "1"), ("TX_TYPE", "DEPOSIT"), ("FROM_USER_ID", "2"),
   ("TO_USER_ID", "3"), ("AMOUNT", "4"), ("TIMESTAMP", "5"),
   ("STATUS", "SUCCESS"), ("DESCRIPTION", "\"x\"")]

/-- A well-formed eight-field map and its decode. -/
def fieldsOk : List (String × String) :=
  [("TX_ID", "1"), ("TX_TYPE", "DEPOSIT"), ("FROM_USER_ID", "2"),
   ("TO_USER_ID", "3"), ("AMOUNT", "4"), ("TIMESTAMP", "5"),
   ("STATUS", "SUCCESS"), ("DESCRIPTION", "\"x\"")]

/-- The decode of `fieldsOk`. -/
def txOk : FinanceData where
  tx_id := 1
  tx_type := .Deposit
  from_user_id := 2
  to_user_id := 3
  amount := 4
  timestamp := 5
  status := .Success
  description := "x"

/-! Theorems. -/

theorem dropWhile_eq_self_of_head {p : Char → Bool} :
    ∀ cs : List Char, (∀ h ∈ cs.head?, p h = false) → cs.dropWhile p = cs := by
  intro cs h
  cases cs with
  | nil => rfl
  | cons a t =>
    simp only [List.head?_cons, Option.mem_def, Option.some.injEq] at h
    simp [List.dropWhile_cons, h a rfl]

theorem trimChars_eq_self (cs : List Char)
    (h1 : ∀ h ∈ cs.head?, isRustWs h = false)
    (h2 : ∀ h ∈ cs.getLast?, isRustWs h = false) :
    trimChars cs = cs := by
  unfold trimChars
  rw [dropWhile_eq_self_of_head cs h1]
  rw [dropWhile_eq_self_of_head cs.reverse]
  · exact List.reverse_reverse cs
  · intro h hh
    rw [List.head?_reverse] at hh
    exact h2 h hh

theorem natDigitsAux_eq (fuel : Nat) : ∀ n, n ≤ fuel →
    natDigitsAux fuel n = Nat.digits 10 n := by
  induction fuel with
  | zero =>
    intro n hn
    have h0 : n = 0 := by omega
    subst h0
    simp [natDigitsAux]
  | succ f ih =>
    intro n hn
    by_cases h0 : n = 0
    · subst h0
      simp [natDigitsAux]
    · simp only [natDigitsAux, if_neg h0]
      have hlt := Nat.div_lt_self (Nat.pos_of_ne_zero h0) (by norm_num : 1 < 10)
      rw [ih (n / 10) (by omega)]
      rw [Nat.digits_def' (by norm_num : (1 : Nat) < 10) (Nat.pos_of_ne_zero h0)]

theorem natDigits_eq (n : Nat) : natDigits n = Nat.digits 10 n :=
  natDigitsAux_eq n n le_rfl

theorem digitsVal_ge (acc : Nat) (l : List Nat) : acc ≤ digitsVal acc l := by
  induction l generalizing acc with
  | nil => simp [digitsVal]
  | cons d t ih =>
    calc acc ≤ acc * 10 + d := by omega
    _ ≤ digitsVal (acc * 10 + d) t := ih _
    _ = digitsVal acc (d :: t) := rfl

theorem digitChar_facts : ∀ d < 10, (digitChar d).isDigit = true ∧
    (digitChar d).toNat - 48 = d ∧ digitChar d ≠ '+' ∧ digitChar d ≠ '-' ∧
    isRustWs (digitChar d) = false := by decide

theorem parseDigitsAcc_render (limit : Nat) (ovMsg : String) (acc : Nat) (l : List Nat)
    (hd : ∀ d ∈ l, d < 10) (hb : digitsVal acc l < limit) :
    parseDigitsAcc limit ovMsg acc (l.map digitChar) = .ok (digitsVal acc l) := by
  induction l generalizing acc with
  | nil => rfl
  | cons d t ih =>
    have hdlt : d < 10 := hd d (by simp)
    obtain ⟨hdig, hval, -, -, -⟩ := digitChar_facts d hdlt
    have hb' : digitsVal (acc * 10 + d) t < limit := hb
    have hacc' : acc * 10 + d < limit :=
      lt_of_le_of_lt (digitsVal_ge _ t) hb'
    simp only [List.map_cons, parseDigitsAcc, hdig, if_true, hval, if_pos hacc']
    exact ih (acc * 10 + d) (fun x hx => hd x (by simp [hx])) hb'

theorem digitsVal_digits (n : Nat) : digitsVal 0 ((Nat.digits 10 n).reverse) = n := by
  have h : ∀ L : List Nat, digitsVal 0 L.reverse = Nat.ofDigits 10 L := by
    intro L
    unfold digitsVal
    rw [List.foldl_reverse]
    induction L with
    | nil => simp [Nat.ofDigits]
    | cons d t ih =>
      simp only [List.foldr_cons, ih, Nat.ofDigits_cons]
      omega
  rw [h, Nat.ofDigits_digits]

theorem natRender_digits (n : Nat) : ∃ l : List Nat, l ≠ [] ∧ (∀ d ∈ l, d < 10) ∧
    digitsVal 0 l = n ∧ natRender n = l.map digitChar := by
  by_cases h : n = 0
  · exact ⟨[0], by simp, by simp, by simp [digitsVal, h], by simp [natRender, h, digitChar]⟩
  · refine ⟨(Nat.digits 10 n).reverse, ?_, ?_, digitsVal_digits n, by simp [natRender, h, natDigits_eq]⟩
    · simp [h, Nat.digits_ne_nil_iff_ne_zero]
    · intro d hd
      rw [List.mem_reverse] at hd
      exact Nat.digits_lt_base (by norm_num) hd

theorem parseUnsigned_natRender (limit n : Nat) (h : n < limit) :
    parseUnsigned limit (String.mk (natRender n)) = .ok n := by
  obtain ⟨l, hne, hd, hval, hrender⟩ := natRender_digits n
  cases l with
  | nil => exact absurd rfl hne
  | cons d t =>
    obtain ⟨-, -, hplus, hminus, -⟩ := digitChar_facts d (hd d (by simp))
    simp only [parseUnsigned, hrender, List.map_cons, String.mk]
    rw [if_neg hplus, if_neg hminus, ← List.map_cons]
    rw [parseDigitsAcc_render limit _ 0 (d :: t) hd (hval ▸ h), hval]

theorem parseU64_natRender (n : Nat) (h : n < 2 ^ 64) :
    parseU64 (String.mk (natRender n)) = .ok n :=
  parseUnsigned_natRender (2 ^ 64) n h

theorem parseI64_intRender (a : Int) (h1 : -(2 ^ 63) ≤ a) (h2 : a < 2 ^ 63) :
    parseI64 (String.mk (intRender a)) = .ok a := by
  by_cases hneg : a < 0
  · obtain ⟨l, hne, hd, hval, hrender⟩ := natRender_digits a.natAbs
    have hne' : natRender a.natAbs ≠ [] := by
      rw [hrender]; simpa using hne
    have hparse := parseDigitsAcc_render (2 ^ 63 + 1)
      "number too small to fit in target type" 0 l hd (by omega)
    simp only [intRender, if_pos hneg, parseI64, String.mk]
    rw [if_neg (by decide : ¬('-' : Char) = '+')]
    rw [if_pos trivial]
    rw [if_neg hne', hrender, hparse]
    show Except.ok (-((digitsVal 0 l : Nat) : Int)) = Except.ok a
    rw [hval]
    simp only [Except.ok.injEq]
    omega
  · obtain ⟨l, hne, hd, hval, hrender⟩ := natRender_digits a.toNat
    simp only [intRender, if_neg hneg, parseI64, String.mk]
    cases l with
    | nil => exact absurd rfl hne
    | cons d t =>
      obtain ⟨-, -, hplus, hminus, -⟩ := digitChar_facts d (hd d (by simp))
      simp only [hrender, List.map_cons]
      rw [if_neg hplus, if_neg hminus, ← List.map_cons]
      rw [parseDigitsAcc_render _ _ 0 (d :: t) hd (by omega), hval]
      simp only [Except.ok.injEq]
      omega

theorem length_beBytes (k v : Nat) : (beBytes k v).length = k := by
  induction k generalizing v with
  | zero => rfl
  | succ k ih => simp [beBytes, ih]

theorem beVal_append_singleton (bs : List Nat) (b : Nat) :
    beVal (bs ++ [b]) = beVal bs * 256 + b := by
  simp [beVal, List.foldl_append]

theorem beVal_beBytes (k v : Nat) : beVal (beBytes k v) = v % 256 ^ k := by
  induction k generalizing v with
  | zero => simp [beBytes, beVal, Nat.mod_one]
  | succ k ih =>
    rw [beBytes, beVal_append_singleton, ih]
    have hmpos : 0 < 256 ^ k := Nat.pos_pow_of_pos k (by norm_num)
    have hps : 256 ^ (k + 1) = 256 ^ k * 256 := by ring
    have d2 : 256 ^ k * (v / 256 / 256 ^ k) + v / 256 % 256 ^ k = v / 256 :=
      Nat.div_add_mod _ _
    have heq : v = v / 256 % 256 ^ k * 256 + v % 256 + v / 256 / 256 ^ k * (256 ^ k * 256) := by
      calc v = 256 * (v / 256) + v % 256 := (Nat.div_add_mod v 256).symm
        _ = 256 * (256 ^ k * (v / 256 / 256 ^ k) + v / 256 % 256 ^ k) + v % 256 := by rw [d2]
        _ = v / 256 % 256 ^ k * 256 + v % 256 + v / 256 / 256 ^ k * (256 ^ k * 256) := by ring
    have hblt : v / 256 % 256 ^ k < 256 ^ k := Nat.mod_lt _ hmpos
    rw [hps]
    conv_rhs => rw [heq]
    rw [Nat.add_mul_mod_self_right]
    exact (Nat.mod_eq_of_lt (by omega)).symm

theorem beVal_beBytes_of_lt (k v : Nat) (h : v < 256 ^ k) :
    beVal (beBytes k v) = v := by
  rw [beVal_beBytes, Nat.mod_eq_of_lt h]

theorem i64ToU64_lt (a : Int) : i64ToU64 a < 2 ^ 64 := by
  unfold i64ToU64; omega

theorem u64_i64_roundtrip (a : Int) (h1 : -(2 ^ 63) ≤ a) (h2 : a < 2 ^ 63) :
    u64ToI64 (i64ToU64 a) = a := by
  unfold u64ToI64 i64ToU64
  omega

theorem i64ToU64_of_nonneg (a : Int) (h0 : 0 ≤ a) (h2 : a < 2 ^ 63) :
    i64ToU64 a = a.toNat := by
  unfold i64ToU64; omega

theorem utf8DecodeFirst_consumed (l : List Nat) (c : Char) (k : Nat)
    (h : utf8DecodeFirst l = some (c, k)) : 1 ≤ k := by
  cases l with
  | nil => simp [utf8DecodeFirst] at h
  | cons b rest =>
    simp only [utf8DecodeFirst] at h
    split_ifs at h with h1 h2 h3 h4 h5
    · simp only [Option.some.injEq, Prod.mk.injEq] at h
      omega
    · rcases rest with - | ⟨b1, r⟩
      · simp [utf8Cont1] at h
      · simp only [utf8Cont1] at h
        split_ifs at h
        simp only [Option.some.injEq, Prod.mk.injEq] at h
        omega
    · rcases rest with - | ⟨b1, r⟩
      · simp [utf8Cont2] at h
      · rcases r with - | ⟨b2, r2⟩
        · simp [utf8Cont2] at h
        · simp only [utf8Cont2] at h
          split_ifs at h
          simp only [Option.some.injEq, Prod.mk.injEq] at h
          omega
    · rcases rest with - | ⟨b1, r⟩
      · simp [utf8Cont3] at h
      · rcases r with - | ⟨b2, r2⟩
        · simp [utf8Cont3] at h
        · rcases r2 with - | ⟨b3, r3⟩
          · simp [utf8Cont3] at h
          · simp only [utf8Cont3] at h
            split_ifs at h
            simp only [Option.some.injEq, Prod.mk.injEq] at h
            omega

theorem utf8DecodeAux_fuel (fuel : Nat) : ∀ (fuel2 : Nat) (l : List Nat),
    l.length ≤ fuel → l.length ≤ fuel2 →
    utf8DecodeAux fuel l = utf8DecodeAux fuel2 l := by
  induction fuel with
  | zero =>
    intro fuel2 l h1 h2
    have : l = [] := List.eq_nil_of_length_eq_zero (by omega)
    subst this
    cases fuel2 <;> rfl
  | succ f ih =>
    intro fuel2 l h1 h2
    cases l with
    | nil => cases fuel2 <;> rfl
    | cons b rest =>
      cases fuel2 with
      | zero => simp at h2
      | succ f2 =>
        simp only [utf8DecodeAux]
        cases hf : utf8DecodeFirst (b :: rest) with
        | none => rfl
        | some ck =>
          obtain ⟨c, k⟩ := ck
          have hk := utf8DecodeFirst_consumed _ _ _ hf
          have hd : ((b :: rest).drop k).length ≤ f := by
            simp only [List.length_drop, List.length_cons] at *
            omega
          have hd2 : ((b :: rest).drop k).length ≤ f2 := by
            simp only [List.length_drop, List.length_cons] at *
            omega
          show (utf8DecodeAux f ((b :: rest).drop k)).map (fun cs => c :: cs) =
            (utf8DecodeAux f2 ((b :: rest).drop k)).map (fun cs => c :: cs)
          rw [ih f2 _ hd hd2]

theorem utf8Decode_nil : utf8Decode [] = some [] := rfl

theorem utf8DecodeFirst_encodeChar (c : Char) (bs : List Nat) :
    utf8DecodeFirst (utf8EncodeChar c ++ bs) =
      some (c, (utf8EncodeChar c).length) := by
  have hv : c.toNat < 0xD800 ∨ (0xE000 ≤ c.toNat ∧ c.toNat < 0x110000) := by
    rcases c.valid with h | h
    · left; exact h
    · right; exact ⟨h.1, h.2⟩
  have hofn : Char.ofNat c.toNat = c := Char.ofNat_toNat c
  unfold utf8EncodeChar
  by_cases h1 : c.toNat < 0x80
  · simp only [if_pos h1, List.cons_append, List.nil_append, List.length_cons,
      List.length_nil]
    simp only [utf8DecodeFirst]
    rw [if_pos h1, hofn]
  · by_cases h2 : c.toNat < 0x800
    · simp only [if_neg h1, if_pos h2, List.cons_append, List.nil_append,
        List.length_cons, List.length_nil]
      simp only [utf8DecodeFirst]
      rw [if_neg (by omega), if_neg (by omega), if_pos (by omega)]
      simp only [utf8Cont1]
      rw [if_pos (by constructor <;> omega)]
      have heq : (0xC0 + c.toNat / 64 - 0xC0) * 64 + (0x80 + c.toNat % 64 - 0x80) =
          c.toNat := by omega
      rw [heq, hofn]
    · by_cases h3 : c.toNat < 0x10000
      · simp only [if_neg h1, if_neg h2, if_pos h3, List.cons_append, List.nil_append,
          List.length_cons, List.length_nil]
        simp only [utf8DecodeFirst]
        rw [if_neg (by omega), if_neg (by omega), if_neg (by omega), if_pos (by omega)]
        simp only [utf8Cont2]
        rw [if_pos (by refine ⟨by omega, by omega, by omega, by omega, by omega, ?_⟩; omega)]
        have heq : (0xE0 + c.toNat / 4096 - 0xE0) * 4096 +
            (0x80 + c.toNat / 64 % 64 - 0x80) * 64 + (0x80 + c.toNat % 64 - 0x80) =
            c.toNat := by omega
        rw [heq, hofn]
      · simp only [if_neg h1, if_neg h2, if_neg h3, List.cons_append, List.nil_append,
          List.length_cons, List.length_nil]
        have hub : c.toNat < 0x110000 := by omega
        simp only [utf8DecodeFirst]
        rw [if_neg (by omega), if_neg (by omega), if_neg (by omega), if_neg (by omega),
          if_pos (by omega)]
        simp only [utf8Cont3]
        rw [if_pos (by refine ⟨by omega, by omega, by omega, by omega, by omega, by omega,
          by omega, by omega⟩)]
        have heq : (0xF0 + c.toNat / 262144 - 0xF0) * 262144 +
            (0x80 + c.toNat / 4096 % 64 - 0x80) * 4096 +
            (0x80 + c.toNat / 64 % 64 - 0x80) * 64 + (0x80 + c.toNat % 64 - 0x80) =
            c.toNat := by omega
        rw [heq, hofn]

theorem utf8EncodeChar_ne_nil (c : Char) : utf8EncodeChar c ≠ [] := by
  unfold utf8EncodeChar
  dsimp only
  split_ifs <;> simp

theorem utf8Decode_encodeChar_cons (c : Char) (bs : List Nat) :
    utf8Decode (utf8EncodeChar c ++ bs) = (utf8Decode bs).map (fun cs => c :: cs) := by
  have hfirst := utf8DecodeFirst_encodeChar c bs
  cases henc : utf8EncodeChar c with
  | nil => exact absurd henc (utf8EncodeChar_ne_nil c)
  | cons b t =>
    rw [henc] at hfirst
    simp only [List.cons_append, List.length_cons] at hfirst
    unfold utf8Decode
    rw [List.cons_append]
    simp only [List.length_cons, List.length_append]
    simp only [utf8DecodeAux]
    rw [hfirst]
    show (utf8DecodeAux (t.length + bs.length) ((b :: (t ++ bs)).drop (t.length + 1))).map
      (fun cs => c :: cs) = (utf8DecodeAux bs.length bs).map (fun cs => c :: cs)
    have hdrop : (b :: (t ++ bs)).drop (t.length + 1) = bs := by
      rw [← List.cons_append]
      rw [show t.length + 1 = (b :: t).length from rfl]
      exact List.drop_left _ _
    rw [hdrop, utf8DecodeAux_fuel (t.length + bs.length) bs.length bs (by omega) (le_refl _)]

theorem utf8_roundtrip (cs : List Char) : utf8Decode (utf8Encode cs) = some cs := by
  induction cs with
  | nil => simp [utf8Encode, utf8Decode, utf8DecodeAux]
  | cons c t ih =>
    have henc : utf8Encode (c :: t) = utf8EncodeChar c ++ utf8Encode t := by
      simp [utf8Encode]
    rw [henc, utf8Decode_encodeChar_cons, ih]
    rfl

theorem remove_quotes_quoteWrap (s : String) :
    remove_quotes (quoteWrap s) = some s := by
  unfold remove_quotes quoteWrap
  rw [if_pos (by
    refine ⟨by simp, ?_⟩
    show ('"' :: (s.data ++ ['"'])).getLast? = some '"'
    rw [show '"' :: (s.data ++ ['"']) = ('"' :: s.data) ++ ['"'] from rfl]
    exact List.getLast?_concat _)]
  rw [if_pos (by simp)]
  simp

theorem readChunk_append (xs rest : List Nat) (k : Nat) (h : xs.length = k) :
    readChunk k (xs ++ rest) = .ok (xs, rest) := by
  unfold readChunk
  rw [if_pos (by simp [h])]
  subst h
  rw [List.take_left, List.drop_left]

theorem readChunk_take_append (xs rest : List Nat) (k n : Nat) (h : xs.length = k) :
    readChunk k ((xs ++ rest).take n) =
      if k ≤ n then .ok (xs, rest.take (n - k)) else .error .EndOfStream := by
  subst h
  by_cases hn : xs.length ≤ n
  · rw [if_pos hn]
    have htake : (xs ++ rest).take n = xs ++ rest.take (n - xs.length) := by
      conv_lhs => rw [show n = xs.length + (n - xs.length) by omega]
      exact List.take_append _
    rw [htake, readChunk_append _ _ _ rfl]
  · rw [if_neg hn]
    unfold readChunk
    rw [if_neg (by simp; omega)]

theorem readChunk_all (xs : List Nat) : readChunk xs.length xs = .ok (xs, []) := by
  have h := readChunk_append xs [] xs.length rfl
  rwa [List.append_nil] at h

theorem deserialize_serialize (r : BinFinanceRecord)
    (hm : r.magic = MAGIC) (h1 : r.record_size < 2 ^ 32) (h2 : r.tx_id < 2 ^ 64)
    (h3 : r.tx_type < 256) (h4 : r.from_user_id < 2 ^ 64) (h5 : r.to_user_id < 2 ^ 64)
    (h6 : -(2 ^ 63) ≤ r.amount) (h7 : r.amount < 2 ^ 63) (h8 : r.timestamp < 2 ^ 64)
    (h9 : r.status < 256) (h10 : r.desc_len = (utf8Encode r.description.data).length)
    (h11 : r.desc_len < 2 ^ 32) :
    BinFinanceRecord.deserialize r.serialize = .ok (r, []) := by
  obtain ⟨m, rs, id, ty, fu, tu, am, ts, st, dl, desc⟩ := r
  simp only at hm h1 h2 h3 h4 h5 h6 h7 h8 h9 h10 h11
  subst hm
  subst h10
  have e1 : beVal (beBytes 4 MAGIC) = MAGIC := by decide
  have e2 : beVal (beBytes 4 rs) = rs := beVal_beBytes_of_lt 4 rs (by omega)
  have e3 : beVal (beBytes 8 id) = id := beVal_beBytes_of_lt 8 id (by omega)
  have e4 : beVal (beBytes 1 ty) = ty := beVal_beBytes_of_lt 1 ty (by omega)
  have e5 : beVal (beBytes 8 fu) = fu := beVal_beBytes_of_lt 8 fu (by omega)
  have e6 : beVal (beBytes 8 tu) = tu := beVal_beBytes_of_lt 8 tu (by omega)
  have e7 : beVal (beBytes 8 (i64ToU64 am)) = i64ToU64 am :=
    beVal_beBytes_of_lt 8 _ (by have := i64ToU64_lt am; omega)
  have e8 : beVal (beBytes 8 ts) = ts := beVal_beBytes_of_lt 8 ts (by omega)
  have e9 : beVal (beBytes 1 st) = st := beVal_beBytes_of_lt 1 st (by omega)
  have e10 : beVal (beBytes 4 (utf8Encode desc.data).length) =
      (utf8Encode desc.data).length := beVal_beBytes_of_lt 4 _ (by omega)
  have eam : u64ToI64 (i64ToU64 am) = am := u64_i64_roundtrip am h6 h7
  simp only [BinFinanceRecord.serialize, BinFinanceRecord.deserialize, readChunk_append,
    length_beBytes, readChunk_all, e1, e2, e3, e4, e5, e6, e7, e8, e9, e10, eam,
    utf8_roundtrip, ne_eq, eq_self_iff_true, not_true_eq_false, if_false]

theorem quoteWrap_head (s : String) : (quoteWrap s).data.head? = some '"' := by
  simp [quoteWrap]

theorem quoteWrap_getLast (s : String) : (quoteWrap s).data.getLast? = some '"' := by
  show ('"' :: (s.data ++ ['"'])).getLast? = some '"'
  rw [show '"' :: (s.data ++ ['"']) = ('"' :: s.data) ++ ['"'] from rfl]
  exact List.getLast?_concat _

theorem from_fin_data_tx_type_lt (d : FinanceData) :
    (BinFinanceRecord.from_fin_data d).tx_type < 256 := by
  cases h : d.tx_type <;> simp [BinFinanceRecord.from_fin_data, h]

theorem from_fin_data_status_lt (d : FinanceData) :
    (BinFinanceRecord.from_fin_data d).status < 256 := by
  cases h : d.status <;> simp [BinFinanceRecord.from_fin_data, h]

theorem to_fin_data_from_fin_data (d : FinanceData)
    (hts1 : chronoMinMillis ≤ d.timestamp) (hts2 : d.timestamp ≤ chronoMaxMillis) :
    (BinFinanceRecord.from_fin_data d).to_fin_data = .ok d := by
  obtain ⟨id, ty, fu, tu, am, ts, st, desc⟩ := d
  simp only at hts1 hts2
  have hts3 : -(2 ^ 63) ≤ ts := by unfold chronoMinMillis at hts1; omega
  have hts4 : ts < 2 ^ 63 := by unfold chronoMaxMillis at hts2; omega
  have hu : u64ToI64 (i64ToU64 ts) = ts := u64_i64_roundtrip _ hts3 hts4
  have hfts : fromTimestampMillis ts = some ts := by
    unfold fromTimestampMillis
    rw [if_pos ⟨hts1, hts2⟩]
  have hq1 := quoteWrap_head desc
  have hq2 := quoteWrap_getLast desc
  have hrq := remove_quotes_quoteWrap desc
  cases ty <;> cases st <;>
    simp [BinFinanceRecord.from_fin_data, BinFinanceRecord.to_fin_data, hu, hfts,
      hq1, hq2, hrq]

theorem read_fin_data_eq (s : List Nat) :
    BinReader.read_fin_data s =
      (match BinFinanceRecord.deserialize s with
        | .error .EndOfStream => .ok (none, [])
        | .error e => .err e
        | .ok (r, rest) =>
          match r.to_fin_data with
          | .ok d => .ok (some d, rest)
          | .err e => .err e
          | .crash => .crash) := rfl

theorem read_fin_data_match_ok (r : BinFinanceRecord) (rest : List Nat) :
    (match (Except.ok (r, rest) : Except ParsError (BinFinanceRecord × List Nat)) with
      | .error .EndOfStream => RunResult.ok (none, [])
      | .error e => RunResult.err e
      | .ok (r, rest) =>
        match r.to_fin_data with
        | .ok d => RunResult.ok (some d, rest)
        | .err e => RunResult.err e
        | .crash => RunResult.crash) =
      (match r.to_fin_data with
        | .ok d => RunResult.ok (some d, rest)
        | .err e => RunResult.err e
        | .crash => RunResult.crash) := rfl

theorem run_match_ok (d : FinanceData) (rest : List Nat) :
    (match (RunResult.ok d : RunResult FinanceData) with
      | .ok d2 => RunResult.ok (some d2, rest)
      | .err e => RunResult.err e
      | .crash => RunResult.crash) = RunResult.ok (some d, rest) := rfl

theorem bin_write_read (d : FinanceData) (hv : d.valid)
    (hfit : utf8Len (quoteWrap d.description).data < 2 ^ 32) :
    BinReader.read_fin_data (BinWriter.write_fin_data d) = .ok (some d, []) := by
  obtain ⟨hid, hfu, htu, ham1, ham2, hts1, hts2⟩ := hv
  have hdl : (BinFinanceRecord.from_fin_data d).desc_len =
      (utf8Encode (BinFinanceRecord.from_fin_data d).description.data).length := by
    show utf8Len (quoteWrap d.description).data % 2 ^ 32 = _
    rw [Nat.mod_eq_of_lt hfit]
    rfl
  have hser := deserialize_serialize (BinFinanceRecord.from_fin_data d)
    rfl
    (Nat.mod_lt _ (by norm_num))
    hid
    (from_fin_data_tx_type_lt d)
    hfu
    htu
    ham1
    ham2
    (i64ToU64_lt d.timestamp)
    (from_fin_data_status_lt d)
    hdl
    (by
      show utf8Len (quoteWrap d.description).data % 2 ^ 32 < 2 ^ 32
      exact Nat.mod_lt _ (by norm_num))
  have hto := to_fin_data_from_fin_data d hts1 hts2
  have hw : BinWriter.write_fin_data d = (BinFinanceRecord.from_fin_data d).serialize := rfl
  rw [read_fin_data_eq, hw, hser, read_fin_data_match_ok, hto, run_match_ok]

theorem readChunk_take_short (l : List Nat) (k j : Nat) (h : j < k) :
    readChunk k (l.take j) = .error .EndOfStream := by
  unfold readChunk
  rw [if_neg]
  simp only [List.length_take]
  omega

theorem deserialize_take (r : BinFinanceRecord) (hm : r.magic = MAGIC)
    (h10 : r.desc_len = (utf8Encode r.description.data).length) (h11 : r.desc_len < 2 ^ 32)
    (n : Nat) (hn : n < r.serialize.length) :
    BinFinanceRecord.deserialize (r.serialize.take n) = .error .EndOfStream := by
  obtain ⟨m, rs, id, ty, fu, tu, am, ts, st, dl, desc⟩ := r
  simp only at hm h10 h11 hn ⊢
  subst hm
  subst h10
  have e1 : beVal (beBytes 4 MAGIC) = MAGIC := by decide
  have e10 : beVal (beBytes 4 (utf8Encode desc.data).length) =
      (utf8Encode desc.data).length := beVal_beBytes_of_lt 4 _ (by omega)
  have hlen : (BinFinanceRecord.serialize
      ⟨MAGIC, rs, id, ty, fu, tu, am, ts, st, (utf8Encode desc.data).length, desc⟩).length =
      54 + (utf8Encode desc.data).length := by
    simp [BinFinanceRecord.serialize, length_beBytes]
    omega
  rw [hlen] at hn
  simp only [BinFinanceRecord.deserialize, BinFinanceRecord.serialize]
  simp only [readChunk_take_append, length_beBytes]
  by_cases hc1 : 4 ≤ n
  · simp only [if_pos hc1, e1, ne_eq, eq_self_iff_true, not_true_eq_false,
      if_false, readChunk_take_append, length_beBytes]
    by_cases hc2 : 4 ≤ n - 4
    · simp only [if_pos hc2, readChunk_take_append, length_beBytes]
      by_cases hc3 : 8 ≤ n - 4 - 4
      · simp only [if_pos hc3, readChunk_take_append, length_beBytes]
        by_cases hc4 : 1 ≤ n - 4 - 4 - 8
        · simp only [if_pos hc4, readChunk_take_append, length_beBytes]
          by_cases hc5 : 8 ≤ n - 4 - 4 - 8 - 1
          · simp only [if_pos hc5, readChunk_take_append, length_beBytes]
            by_cases hc6 : 8 ≤ n - 4 - 4 - 8 - 1 - 8
            · simp only [if_pos hc6, readChunk_take_append, length_beBytes]
              by_cases hc7 : 8 ≤ n - 4 - 4 - 8 - 1 - 8 - 8
              · simp only [if_pos hc7, readChunk_take_append, length_beBytes]
                by_cases hc8 : 8 ≤ n - 4 - 4 - 8 - 1 - 8 - 8 - 8
                · simp only [if_pos hc8, readChunk_take_append, length_beBytes]
                  by_cases hc9 : 1 ≤ n - 4 - 4 - 8 - 1 - 8 - 8 - 8 - 8
                  · simp only [if_pos hc9, readChunk_take_append, length_beBytes]
                    by_cases hc10 : 4 ≤ n - 4 - 4 - 8 - 1 - 8 - 8 - 8 - 8 - 1
                    · simp only [if_pos hc10, e10]
                      have hshort : readChunk ((utf8Encode desc.data).length)
                          ((utf8Encode desc.data).take
                            (n - 4 - 4 - 8 - 1 - 8 - 8 - 8 - 8 - 1 - 4)) =
                          .error .EndOfStream :=
                        readChunk_take_short _ _ _ (by omega)
                      rw [hshort]
                    · simp [if_neg hc10]
                  · simp [if_neg hc9]
                · simp [if_neg hc8]
              · simp [if_neg hc7]
            · simp [if_neg hc6]
          · simp [if_neg hc5]
        · simp [if_neg hc4]
      · simp [if_neg hc3]
    · simp [if_neg hc2]
  · simp [if_neg hc1]

theorem bin_read_truncated (d : FinanceData)
    (hfit : utf8Len (quoteWrap d.description).data < 2 ^ 32)
    (n : Nat) (hn : n < (BinWriter.write_fin_data d).length) :
    BinReader.read_fin_data ((BinWriter.write_fin_data d).take n) = .ok (none, []) := by
  have hdl : (BinFinanceRecord.from_fin_data d).desc_len =
      (utf8Encode (BinFinanceRecord.from_fin_data d).description.data).length := by
    show utf8Len (quoteWrap d.description).data % 2 ^ 32 = _
    rw [Nat.mod_eq_of_lt hfit]
    rfl
  have htr := deserialize_take (BinFinanceRecord.from_fin_data d) rfl hdl
    (by
      show utf8Len (quoteWrap d.description).data % 2 ^ 32 < 2 ^ 32
      exact Nat.mod_lt _ (by norm_num))
    n hn
  have hw : (BinWriter.write_fin_data d).take n =
      ((BinFinanceRecord.from_fin_data d).serialize).take n := rfl
  rw [read_fin_data_eq, hw, htr]

theorem csvGetToken_value_length (input : List Char) : ∀ (st : CsvParserState)
    (buf : List Char) (v : String) (st2 : CsvParserState) (rest : List Char),
    csvGetToken st buf input = (.Value v, st2, rest) ∨
    csvGetToken st buf input = (.EndOfLine v, st2, rest) →
    rest.length < input.length := by
  induction input with
  | nil =>
    intro st buf v st2 rest h
    unfold csvGetToken at h
    dsimp only at h
    rcases h with h | h <;> split_ifs at h <;> simp_all
  | cons c t ih =>
    intro st buf v st2 rest h
    have hstep : ∀ (st3 : CsvParserState) (buf3 : List Char),
        csvGetToken st3 buf3 t = (.Value v, st2, rest) ∨
        csvGetToken st3 buf3 t = (.EndOfLine v, st2, rest) →
        rest.length < (c :: t).length := by
      intro st3 buf3 h3
      have := ih st3 buf3 v st2 rest h3
      simp only [List.length_cons]
      omega
    cases st <;> simp only [csvGetToken] at h <;> try split_ifs at h
    all_goals rcases h with h | h
    all_goals
      first
      | exact hstep _ _ (Or.inl h)
      | exact hstep _ _ (Or.inr h)
      | (simp only [Prod.mk.injEq] at h
         obtain ⟨-, -, hr⟩ := h
         subst hr
         simp)
      | simp_all

theorem csvReadValuesAux_fuel (fuel : Nat) : ∀ (fuel2 : Nat) (st : CsvParserState)
    (input : List Char), input.length < fuel → input.length < fuel2 →
    csvReadValuesAux fuel st input = csvReadValuesAux fuel2 st input := by
  induction fuel with
  | zero => intro fuel2 st input h1; omega
  | succ f ih =>
    intro fuel2 st input h1 h2
    cases fuel2 with
    | zero => omega
    | succ f2 =>
      simp only [csvReadValuesAux]
      cases htok : csvGetToken st [] input with
      | mk tok str =>
        obtain ⟨st2, rest⟩ := str
        cases tok with
        | Value v =>
          have hlen := csvGetToken_value_length input st [] v st2 rest (Or.inl htok)
          dsimp only
          rw [ih f2 st2 rest (by omega) (by omega)]
        | EndOfLine v => rfl
        | EndOfStream r => cases r <;> rfl

theorem csvReadValues_eq (st : CsvParserState) (input : List Char) :
    csvReadValues st input =
      match csvGetToken st [] input with
      | (.Value v, st2, rest) =>
        let r := csvReadValues st2 rest
        (v :: r.1, r.2.1, r.2.2.1, r.2.2.2)
      | (.EndOfLine v, st2, rest) => ([v], st2, rest, .line)
      | (.EndOfStream none, st2, rest) => ([], st2, rest, .eofEmpty)
      | (.EndOfStream (some r), st2, rest) => ([r], st2, rest, .eofRem) := by
  unfold csvReadValues
  rw [show input.length + 1 = (input.length + 1 - 1) + 1 from rfl]
  simp only [csvReadValuesAux]
  cases htok : csvGetToken st [] input with
  | mk tok str =>
    obtain ⟨st2, rest⟩ := str
    cases tok with
    | Value v =>
      have hlen := csvGetToken_value_length input st [] v st2 rest (Or.inl htok)
      dsimp only
      rw [csvReadValuesAux_fuel (input.length + 1 - 1) (rest.length + 1) st2 rest
        (by omega) (by omega)]
      rfl
    | EndOfLine v => rfl
    | EndOfStream r => cases r <;> rfl

theorem csvTok_regular (t : List Char) : ∀ (buf rest : List Char),
    (∀ c ∈ t, c ≠ ',' ∧ c ≠ '\n') →
    csvGetToken .WaitEndRegular buf (t ++ ',' :: rest) =
      (.Value (String.mk (trimChars (buf ++ t))), .WaitStartValue, rest) ∧
    csvGetToken .WaitEndRegular buf (t ++ '\n' :: rest) =
      (.EndOfLine (String.mk (trimChars (buf ++ t))), .WaitStartRecord, rest) := by
  induction t with
  | nil =>
    intro buf rest hsafe
    constructor
    · simp [csvGetToken]
    · simp [csvGetToken]
  | cons c t ih =>
    intro buf rest hsafe
    obtain ⟨hc1, hc2⟩ := hsafe c (by simp)
    have hrec := ih (buf ++ [c]) rest (fun x hx => hsafe x (by simp [hx]))
    rw [List.append_assoc] at hrec
    simp only [List.cons_append, csvGetToken, if_neg hc1, if_neg hc2]
    simpa using hrec

theorem csvTok_string_loop (d : List Char) : ∀ (buf rest : List Char),
    (∀ c ∈ d, c ≠ '\\' ∧ c ≠ '"') →
    csvGetToken .WaitEndString buf (d ++ '"' :: rest) =
      csvGetToken .WaitEndRegular (buf ++ d ++ ['"']) rest := by
  induction d with
  | nil =>
    intro buf rest hsafe
    simp [csvGetToken]
  | cons c t ih =>
    intro buf rest hsafe
    obtain ⟨hc1, hc2⟩ := hsafe c (by simp)
    have hrec := ih (buf ++ [c]) rest (fun x hx => hsafe x (by simp [hx]))
    rw [List.append_assoc] at hrec
    simp only [List.cons_append, csvGetToken, if_neg hc1, if_neg hc2]
    simpa using hrec

theorem digitChar_safe : ∀ d < 10, digitChar d ≠ ',' ∧ digitChar d ≠ '\n' ∧
    digitChar d ≠ '"' ∧ digitChar d ≠ ' ' ∧ digitChar d ≠ ':' ∧ digitChar d ≠ '#' ∧
    digitChar d ≠ '\\' := by decide

theorem natRender_safe (n : Nat) : ∀ c ∈ natRender n, c ≠ ',' ∧ c ≠ '\n' ∧
    c ≠ '"' ∧ c ≠ ' ' ∧ c ≠ ':' ∧ c ≠ '#' ∧ c ≠ '\\' ∧ isRustWs c = false := by
  obtain ⟨l, -, hd, -, hrender⟩ := natRender_digits n
  rw [hrender]
  intro c hc
  rw [List.mem_map] at hc
  obtain ⟨d, hdm, rfl⟩ := hc
  obtain ⟨h1, h2, h3, h4, h5, h6, h7⟩ := digitChar_safe d (hd d hdm)
  obtain ⟨-, -, -, -, h8⟩ := digitChar_facts d (hd d hdm)
  exact ⟨h1, h2, h3, h4, h5, h6, h7, h8⟩

theorem intRender_safe (a : Int) : ∀ c ∈ intRender a, c ≠ ',' ∧ c ≠ '\n' ∧
    c ≠ '"' ∧ c ≠ ' ' ∧ c ≠ ':' ∧ c ≠ '#' ∧ c ≠ '\\' ∧ isRustWs c = false := by
  unfold intRender
  split_ifs
  · intro c hc
    rcases List.mem_cons.mp hc with rfl | hc2
    · refine ⟨by decide, by decide, by decide, by decide, by decide, by decide,
        by decide, by decide⟩
    · exact natRender_safe _ c hc2
  · exact natRender_safe _

theorem natRender_ne_nil (n : Nat) : natRender n ≠ [] := by
  obtain ⟨l, hne, -, -, hrender⟩ := natRender_digits n
  rw [hrender]
  simpa using hne

theorem intRender_ne_nil (a : Int) : intRender a ≠ [] := by
  unfold intRender
  split_ifs
  · simp
  · exact natRender_ne_nil _

theorem trimChars_of_safe (cs : List Char)
    (hsafe : ∀ c ∈ cs, isRustWs c = false) : trimChars cs = cs := by
  unfold trimChars
  rw [dropWhile_eq_self_of_head cs]
  · rw [dropWhile_eq_self_of_head cs.reverse]
    · exact List.reverse_reverse cs
    · intro x hx
      cases hrev : cs.reverse with
      | nil => rw [hrev] at hx; simp at hx
      | cons a t =>
        rw [hrev] at hx
        simp only [List.head?_cons, Option.mem_def, Option.some.injEq] at hx
        subst hx
        apply hsafe
        rw [← List.mem_reverse, hrev]
        simp
  · intro x hx
    cases cs with
    | nil => simp at hx
    | cons a t =>
      simp only [List.head?_cons, Option.mem_def, Option.some.injEq] at hx
      subst hx
      apply hsafe
      simp

theorem csvTok_unquoted (st : CsvParserState)
    (hst : st = .WaitStartRecord ∨ st = .WaitStartValue)
    (h : Char) (t rest : List Char)
    (hh : h ≠ ' ' ∧ h ≠ '\n' ∧ h ≠ '"')
    (hsafe : ∀ c ∈ h :: t, c ≠ ',' ∧ c ≠ '\n') :
    csvGetToken st [] ((h :: t) ++ ',' :: rest) =
      (.Value (String.mk (trimChars (h :: t))), .WaitStartValue, rest) ∧
    csvGetToken st [] ((h :: t) ++ '\n' :: rest) =
      (.EndOfLine (String.mk (trimChars (h :: t))), .WaitStartRecord, rest) := by
  obtain ⟨hh1, hh2, hh3⟩ := hh
  have hreg := csvTok_regular t [h] rest (fun c hc => hsafe c (by simp [hc]))
  have hb : ([h] : List Char) ++ t = h :: t := rfl
  rw [hb] at hreg
  rcases hst with rfl | rfl
  · constructor
    · simp only [List.cons_append, csvGetToken,
        if_neg (show ¬(h = ' ' ∨ h = '\n') by push_neg; exact ⟨hh1, hh2⟩), if_neg hh3,
        List.nil_append]
      exact hreg.1
    · simp only [List.cons_append, csvGetToken,
        if_neg (show ¬(h = ' ' ∨ h = '\n') by push_neg; exact ⟨hh1, hh2⟩), if_neg hh3,
        List.nil_append]
      exact hreg.2
  · constructor
    · simp only [List.cons_append, csvGetToken, if_neg hh1, if_neg hh3, List.nil_append]
      exact hreg.1
    · simp only [List.cons_append, csvGetToken, if_neg hh1, if_neg hh3, List.nil_append]
      exact hreg.2

theorem csvTok_quoted (st : CsvParserState)
    (hst : st = .WaitStartRecord ∨ st = .WaitStartValue)
    (d rest : List Char)
    (hsafe : ∀ c ∈ d, c ≠ '\\' ∧ c ≠ '"') :
    csvGetToken st [] (('"' :: (d ++ ['"'])) ++ ',' :: rest) =
      (.Value (String.mk ('"' :: (d ++ ['"']))), .WaitStartValue, rest) ∧
    csvGetToken st [] (('"' :: (d ++ ['"'])) ++ '\n' :: rest) =
      (.EndOfLine (String.mk ('"' :: (d ++ ['"']))), .WaitStartRecord, rest) := by
  have htrim : trimChars ('"' :: (d ++ ['"'])) = '"' :: (d ++ ['"']) := by
    apply trimChars_eq_self
    · intro x hx
      simp only [List.head?_cons, Option.mem_def, Option.some.injEq] at hx
      subst hx
      decide
    · intro x hx
      rw [show ('"' :: (d ++ ['"'])) = ('"' :: d) ++ ['"'] from rfl,
        List.getLast?_concat] at hx
      simp only [Option.mem_def, Option.some.injEq] at hx
      subst hx
      decide
  have hloopC := csvTok_string_loop d ['"'] (',' :: rest) hsafe
  have hloopN := csvTok_string_loop d ['"'] ('\n' :: rest) hsafe
  have hb : (['"'] : List Char) ++ d ++ ['"'] = '"' :: (d ++ ['"']) := by simp
  rw [hb] at hloopC hloopN
  have hcomma := (csvTok_regular [] ('"' :: (d ++ ['"'])) rest (by simp)).1
  have hnl := (csvTok_regular [] ('"' :: (d ++ ['"'])) rest (by simp)).2
  simp only [List.nil_append, List.append_nil] at hcomma hnl
  rw [htrim] at hcomma hnl
  have hstep : ∀ sepRest : List Char,
      csvGetToken st [] (('"' :: (d ++ ['"'])) ++ sepRest) =
        csvGetToken .WaitEndString ['"'] ((d ++ ['"']) ++ sepRest) := by
    intro sepRest
    rcases hst with rfl | rfl
    · simp [csvGetToken]
    · simp [csvGetToken]
  constructor
  · rw [hstep (',' :: rest)]
    rw [show (d ++ ['"']) ++ ',' :: rest = d ++ '"' :: (',' :: rest) by simp]
    rw [hloopC]
    exact hcomma
  · rw [hstep ('\n' :: rest)]
    rw [show (d ++ ['"']) ++ '\n' :: rest = d ++ '"' :: ('\n' :: rest) by simp]
    rw [hloopN]
    exact hnl

theorem serialize_eq_fieldsChars (fs : List String) (hne : fs ≠ []) (tail : List Char) :
    CsvTxRecord.serialize fs ++ tail = fieldsChars fs tail := by
  induction fs with
  | nil => exact absurd rfl hne
  | cons f rest ih =>
    cases hrest : rest with
    | nil =>
      simp [CsvTxRecord.serialize, joinComma, fieldsChars]
    | cons g rest2 =>
      have ih2 := ih (by simp [hrest])
      rw [hrest] at ih2
      have key : joinComma (g :: rest2) ++ '\n' :: tail = fieldsChars (g :: rest2) tail := by
        rw [← ih2]
        simp [CsvTxRecord.serialize]
      rw [show fieldsChars (f :: g :: rest2) tail =
        f.data ++ ',' :: fieldsChars (g :: rest2) tail from rfl]
      rw [← key]
      simp [CsvTxRecord.serialize, joinComma]

theorem trimChars_quoted (d : List Char) :
    trimChars ('"' :: (d ++ ['"'])) = '"' :: (d ++ ['"']) := by
  apply trimChars_eq_self
  · intro x hx
    simp only [List.head?_cons, Option.mem_def, Option.some.injEq] at hx
    subst hx
    decide
  · intro x hx
    rw [show ('"' :: (d ++ ['"'])) = ('"' :: d) ++ ['"'] from rfl,
      List.getLast?_concat] at hx
    simp only [Option.mem_def, Option.some.injEq] at hx
    subst hx
    decide

theorem csvReadValues_fields (fs : List String) : ∀ (f : String) (tail : List Char)
    (st : CsvParserState), (st = .WaitStartRecord ∨ st = .WaitStartValue) →
    csvFieldOk f.data → (∀ g ∈ fs, csvFieldOk g.data) →
    csvReadValues st (f.data ++
        (if fs = [] then '\n' :: tail else ',' :: fieldsChars fs tail)) =
      ((f :: fs).map (fun g => String.mk (trimChars g.data)), .WaitStartRecord,
        tail, .line) := by
  induction fs with
  | nil =>
    intro f tail st hst hf _
    rw [if_pos rfl, csvReadValues_eq]
    rcases hf with ⟨hne, hsafe, hsp, hnl, hq⟩ | ⟨d, hd, hdsafe⟩
    · cases hfd : f.data with
      | nil => exact absurd hfd hne
      | cons h t =>
        rw [hfd] at hsafe hsp hnl hq
        simp only [List.head?_cons, ne_eq, Option.some.injEq] at hsp hnl hq
        rw [(csvTok_unquoted st hst h t tail ⟨hsp, hnl, hq⟩ hsafe).2]
        simp [hfd]
    · rw [hd]
      rw [(csvTok_quoted st hst d tail hdsafe).2]
      simp [hd, trimChars_quoted]
  | cons g fs ih =>
    intro f tail st hst hf hgs
    rw [if_neg (by simp)]
    have hrest : fieldsChars (g :: fs) tail =
        g.data ++ (if fs = [] then '\n' :: tail else ',' :: fieldsChars fs tail) := rfl
    rw [csvReadValues_eq]
    rcases hf with ⟨hne, hsafe, hsp, hnl, hq⟩ | ⟨d, hd, hdsafe⟩
    · cases hfd : f.data with
      | nil => exact absurd hfd hne
      | cons h t =>
        rw [hfd] at hsafe hsp hnl hq
        simp only [List.head?_cons, ne_eq, Option.some.injEq] at hsp hnl hq
        rw [(csvTok_unquoted st hst h t (fieldsChars (g :: fs) tail)
          ⟨hsp, hnl, hq⟩ hsafe).1]
        dsimp only
        rw [hrest, ih g tail .WaitStartValue (Or.inr rfl) (hgs g (by simp))
          (fun x hx => hgs x (by simp [hx]))]
        simp [hfd]
    · rw [hd]
      rw [(csvTok_quoted st hst d (fieldsChars (g :: fs) tail) hdsafe).1]
      dsimp only
      rw [hrest, ih g tail .WaitStartValue (Or.inr rfl) (hgs g (by simp))
        (fun x hx => hgs x (by simp [hx]))]
      simp [hd, trimChars_quoted]

theorem trim_natRender (n : Nat) : trimChars (natRender n) = natRender n :=
  trimChars_of_safe _ (fun c hc => (natRender_safe n c hc).2.2.2.2.2.2.2)

theorem trim_intRender (a : Int) : trimChars (intRender a) = intRender a :=
  trimChars_of_safe _ (fun c hc => (intRender_safe a c hc).2.2.2.2.2.2.2)

theorem csvFieldOk_of_all (s : List Char) (hne : s ≠ [])
    (h : ∀ c ∈ s, c ≠ ',' ∧ c ≠ '\n' ∧ c ≠ ' ' ∧ c ≠ '"') : csvFieldOk s := by
  left
  refine ⟨hne, fun c hc => ⟨(h c hc).1, (h c hc).2.1⟩, ?_, ?_, ?_⟩ <;>
  · cases s with
    | nil => simp
    | cons a t =>
      simp only [List.head?_cons, ne_eq, Option.some.injEq]
      have := h a (by simp)
      tauto

theorem csvFieldOk_natRender (n : Nat) : csvFieldOk (natRender n) := by
  apply csvFieldOk_of_all _ (natRender_ne_nil n)
  intro c hc
  have h := natRender_safe n c hc
  tauto

theorem csvFieldOk_intRender (a : Int) : csvFieldOk (intRender a) := by
  apply csvFieldOk_of_all _ (intRender_ne_nil a)
  intro c hc
  have h := intRender_safe a c hc
  tauto

theorem csvFieldOk_quoteWrap (s : String)
    (hdesc : ∀ c ∈ s.data, c ≠ '\\' ∧ c ≠ '"') : csvFieldOk (quoteWrap s).data := by
  right
  exact ⟨s.data, rfl, hdesc⟩

theorem csv_row_fieldOk (t : Transaction)
    (hdesc : ∀ c ∈ t.description.data, c ≠ '\\' ∧ c ≠ '"') :
    ∀ g ∈ CsvTxRecord.from_transaction t, csvFieldOk g.data := by
  intro g hg
  simp only [CsvTxRecord.from_transaction, List.mem_cons, List.mem_singleton] at hg
  rcases hg with rfl | rfl | rfl | rfl | rfl | rfl | rfl | rfl | h
  · exact csvFieldOk_natRender _
  · cases t.tx_type <;>
    · apply csvFieldOk_of_all _ (by decide)
      decide
  · exact csvFieldOk_natRender _
  · exact csvFieldOk_natRender _
  · exact csvFieldOk_intRender _
  · exact csvFieldOk_natRender _
  · cases t.status <;>
    · apply csvFieldOk_of_all _ (by decide)
      decide
  · exact csvFieldOk_quoteWrap _ hdesc
  · simp at h

theorem csv_trim_row (t : Transaction) :
    (CsvTxRecord.from_transaction t).map (fun g => String.mk (trimChars g.data)) =
      CsvTxRecord.from_transaction t := by
  simp only [CsvTxRecord.from_transaction, List.map_cons, List.map_nil]
  rw [show (quoteWrap t.description).data = '"' :: (t.description.data ++ ['"']) from rfl]
  rw [trimChars_quoted]
  cases t.tx_type <;> cases t.status <;>
    simp [trim_natRender, trim_intRender, quoteWrap] <;> decide

theorem csv_to_from (t : Transaction) (hv : t.valid) :
    CsvTxRecord.to_transaction (CsvTxRecord.from_transaction t) = .ok t := by
  obtain ⟨hid, hfu, htu, ham1, ham2, hts1, hts2⟩ := hv
  obtain ⟨id, ty, fu, tu, am, ts, st, desc⟩ := t
  simp only at hid hfu htu ham1 ham2 hts1 hts2
  have hts3 : -(2 ^ 63) ≤ ts := by unfold chronoMinMillis at hts1; omega
  have hts4 : ts < 2 ^ 63 := by unfold chronoMaxMillis at hts2; omega
  have hu : u64ToI64 (i64ToU64 ts) = ts := u64_i64_roundtrip _ hts3 hts4
  have e1 : parseU64 (String.mk (natRender id)) = .ok id := parseU64_natRender id hid
  have e2 : parseU64 (String.mk (natRender fu)) = .ok fu := parseU64_natRender fu hfu
  have e3 : parseU64 (String.mk (natRender tu)) = .ok tu := parseU64_natRender tu htu
  have e4 : parseI64 (String.mk (intRender am)) = .ok am := parseI64_intRender am ham1 ham2
  have e5 : parseU64 (String.mk (natRender (i64ToU64 ts))) = .ok (i64ToU64 ts) :=
    parseU64_natRender _ (i64ToU64_lt ts)
  have e6 : fromTimestampMillis (u64ToI64 (i64ToU64 ts)) = some ts := by
    rw [hu]
    unfold fromTimestampMillis
    rw [if_pos ⟨hts1, hts2⟩]
  cases ty <;> cases st <;>
    simp [CsvTxRecord.to_transaction, CsvTxRecord.from_transaction, fieldAt,
      headerIdx, headerPairs, e1, e2, e3, e4, e5, e6, quoteWrap_head,
      quoteWrap_getLast, remove_quotes_quoteWrap, TX_ID, TX_TYPE, FROM_USER_ID,
      TO_USER_ID, AMOUNT, TIMESTAMP, STATUS, DESCRIPTION, DEPOSIT, TRANSFER,
      WITHDRAWAL, SUCCESS, FAILURE, PENDING, List.lookup, List.getD]

theorem csvReadValues_eofRem_ne_nil (st : CsvParserState) (input : List Char)
    (h : (csvReadValues st input).2.2.2 = .eofRem) :
    (csvReadValues st input).1 ≠ [] := by
  rw [csvReadValues_eq] at h ⊢
  cases htok : csvGetToken st [] input with
  | mk tok str =>
    obtain ⟨st2, rest⟩ := str
    cases tok with
    | Value v => simp
    | EndOfLine v => simp
    | EndOfStream r => cases r <;> simp_all

theorem csvReadValues_nil_end (st : CsvParserState) (input : List Char)
    (h : (csvReadValues st input).1 = []) :
    (csvReadValues st input).2.2.2 = .eofEmpty := by
  rw [csvReadValues_eq] at h ⊢
  cases htok : csvGetToken st [] input with
  | mk tok str =>
    obtain ⟨st2, rest⟩ := str
    rw [htok] at h
    cases tok with
    | Value v => simp at h
    | EndOfLine v => simp at h
    | EndOfStream r => cases r <;> simp_all

theorem csv_write_read (t : Transaction) (hv : t.valid)
    (hdesc : ∀ c ∈ t.description.data, c ≠ '\\' ∧ c ≠ '"') :
    CsvTxReader.read_transaction CsvTxReader.initState
      (CsvTxWriter.write_first_transaction t) =
      .ok (some t, ⟨true, .WaitStartRecord⟩, []) := by
  have hhk : ∀ g ∈ HEADER_VALUES, csvFieldOk g.data := by
    intro g hg
    fin_cases hg <;>
    · apply csvFieldOk_of_all _ (by decide)
      decide
  have hinput : CsvTxWriter.write_first_transaction t =
      fieldsChars HEADER_VALUES
        (CsvTxRecord.serialize (CsvTxRecord.from_transaction t)) := by
    unfold CsvTxWriter.write_first_transaction csvHeaderLine
    exact serialize_eq_fieldsChars HEADER_VALUES (by simp [HEADER_VALUES]) _
  have hread1 : csvReadValues .WaitStartRecord
      (fieldsChars HEADER_VALUES
        (CsvTxRecord.serialize (CsvTxRecord.from_transaction t))) =
      (HEADER_VALUES.map (fun g => String.mk (trimChars g.data)), .WaitStartRecord,
        CsvTxRecord.serialize (CsvTxRecord.from_transaction t), .line) :=
    csvReadValues_fields
      [TX_TYPE, FROM_USER_ID, TO_USER_ID, AMOUNT, TIMESTAMP, STATUS, DESCRIPTION]
      TX_ID _ .WaitStartRecord (Or.inl rfl) (hhk TX_ID (by simp [HEADER_VALUES]))
      (fun g hg => hhk g (by simp [HEADER_VALUES]; simp at hg; tauto))
  have hmapH : HEADER_VALUES.map (fun g => String.mk (trimChars g.data)) =
      HEADER_VALUES := by decide
  have hrowfields := csv_row_fieldOk t hdesc
  have hserrow : CsvTxRecord.serialize (CsvTxRecord.from_transaction t) =
      fieldsChars (CsvTxRecord.from_transaction t) [] := by
    have h := serialize_eq_fieldsChars (CsvTxRecord.from_transaction t)
      (by simp [CsvTxRecord.from_transaction]) []
    simpa using h
  have hread2 : csvReadValues .WaitStartRecord
      (fieldsChars (CsvTxRecord.from_transaction t) []) =
      ((CsvTxRecord.from_transaction t).map (fun g => String.mk (trimChars g.data)),
        .WaitStartRecord, [], .line) :=
    csvReadValues_fields _ _ [] .WaitStartRecord (Or.inl rfl)
      (hrowfields _ (by simp [CsvTxRecord.from_transaction]))
      (fun g hg => hrowfields g (by simp [CsvTxRecord.from_transaction]; simp at hg; tauto))
  rw [hinput]
  simp only [CsvTxReader.read_transaction, CsvTxReader.initState]
  rw [if_neg (by simp)]
  simp only [CsvTxReader.read_header, hread1, hmapH]
  rw [if_neg (by simp)]
  simp only [CsvTxReader.read_row, hserrow, hread2, csv_trim_row]
  rw [if_neg (by simp [CsvTxRecord.from_transaction])]
  rw [csv_to_from t hv]

theorem textGetToken_kv_length (input : List Char) : ∀ (st : TextParserState)
    (kb vb : List Char) (k v : String) (st2 : TextParserState) (rest : List Char),
    textGetToken st kb vb input = (.KeyValue k v, st2, rest) →
    rest.length < input.length := by
  induction input with
  | nil =>
    intro st kb vb k v st2 rest h
    unfold textGetToken at h
    dsimp only at h
    split_ifs at h <;> simp_all
  | cons c t ih =>
    intro st kb vb k v st2 rest h
    have hstep : ∀ (st3 : TextParserState) (kb3 vb3 : List Char),
        textGetToken st3 kb3 vb3 t = (.KeyValue k v, st2, rest) →
        rest.length < (c :: t).length := by
      intro st3 kb3 vb3 h3
      have := ih st3 kb3 vb3 k v st2 rest h3
      simp only [List.length_cons]
      omega
    cases st <;> simp only [textGetToken] at h <;> try split_ifs at h
    all_goals
      first
      | exact hstep _ _ _ h
      | (simp only [Prod.mk.injEq] at h
         obtain ⟨-, -, hr⟩ := h
         subst hr
         simp)
      | simp_all

theorem textCollectAux_fuel (fuel : Nat) : ∀ (fuel2 : Nat) (st : TextParserState)
    (fields : List (String × String)) (input : List Char),
    input.length < fuel → input.length < fuel2 →
    textCollectAux fuel st fields input = textCollectAux fuel2 st fields input := by
  induction fuel with
  | zero => intro fuel2 st fields input h1; omega
  | succ f ih =>
    intro fuel2 st fields input h1 h2
    cases fuel2 with
    | zero => omega
    | succ f2 =>
      simp only [textCollectAux]
      cases htok : textGetToken st [] [] input with
      | mk tok str =>
        obtain ⟨st2, rest⟩ := str
        cases tok with
        | KeyValue k v =>
          have hlen := textGetToken_kv_length input st [] [] k v st2 rest htok
          dsimp only
          rw [ih f2 st2 (insertField fields k v) rest (by omega) (by omega)]
        | SplitRecords => rfl
        | EndOfStream r => rcases r with - | ⟨k, v⟩ <;> rfl

theorem textCollect_eq (st : TextParserState) (fields : List (String × String))
    (input : List Char) :
    textCollect st fields input =
      match textGetToken st [] [] input with
      | (.KeyValue k v, st2, rest) => textCollect st2 (insertField fields k v) rest
      | (.SplitRecords, st2, rest) => (fields, st2, rest)
      | (.EndOfStream none, st2, rest) => (fields, st2, rest)
      | (.EndOfStream (some (k, v)), st2, rest) =>
        (insertField fields k v, st2, rest) := by
  unfold textCollect
  rw [show input.length + 1 = (input.length + 1 - 1) + 1 from rfl]
  simp only [textCollectAux]
  cases htok : textGetToken st [] [] input with
  | mk tok str =>
    obtain ⟨st2, rest⟩ := str
    cases tok with
    | KeyValue k v =>
      have hlen := textGetToken_kv_length input st [] [] k v st2 rest htok
      dsimp only
      rw [textCollectAux_fuel (input.length + 1 - 1) (rest.length + 1) st2
        (insertField fields k v) rest (by omega) (by omega)]
      rfl
    | SplitRecords => rfl
    | EndOfStream r => rcases r with - | ⟨k, v⟩ <;> rfl

theorem textTok_key (t : List Char) : ∀ (kb vb rest : List Char),
    (∀ c ∈ t, c ≠ ':') →
    textGetToken .WaitEndKey kb vb (t ++ ':' :: rest) =
      textGetToken .WaitStartValue (kb ++ t) vb rest := by
  induction t with
  | nil =>
    intro kb vb rest _
    simp [textGetToken]
  | cons c t ih =>
    intro kb vb rest hsafe
    have hc := hsafe c (by simp)
    have hrec := ih (kb ++ [c]) vb rest (fun x hx => hsafe x (by simp [hx]))
    rw [List.append_assoc] at hrec
    simp only [List.cons_append, textGetToken, if_neg hc]
    simpa using hrec

theorem textTok_regular (t : List Char) : ∀ (kb vb rest : List Char),
    (∀ c ∈ t, c ≠ '\n') →
    textGetToken .WaitEndRegular kb vb (t ++ '\n' :: rest) =
      (.KeyValue (String.mk (trimChars kb)) (String.mk (trimChars (vb ++ t))),
        .WaitStartKey, rest) := by
  induction t with
  | nil =>
    intro kb vb rest _
    simp [textGetToken]
  | cons c t ih =>
    intro kb vb rest hsafe
    have hc := hsafe c (by simp)
    have hrec := ih kb (vb ++ [c]) rest (fun x hx => hsafe x (by simp [hx]))
    rw [List.append_assoc] at hrec
    simp only [List.cons_append, textGetToken, if_neg hc]
    simpa using hrec

theorem textTok_string_loop (d : List Char) : ∀ (kb vb rest : List Char),
    (∀ c ∈ d, c ≠ '\\' ∧ c ≠ '"') →
    textGetToken .WaitEndString kb vb (d ++ '"' :: rest) =
      textGetToken .WaitEndRegular kb (vb ++ d ++ ['"']) rest := by
  induction d with
  | nil =>
    intro kb vb rest _
    simp [textGetToken]
  | cons c t ih =>
    intro kb vb rest hsafe
    obtain ⟨hc1, hc2⟩ := hsafe c (by simp)
    have hrec := ih kb (vb ++ [c]) rest (fun x hx => hsafe x (by simp [hx]))
    rw [List.append_assoc] at hrec
    simp only [List.cons_append, textGetToken, if_neg hc1, if_neg hc2]
    simpa using hrec

theorem textTok_kv (st : TextParserState)
    (hst : st = .WaitStartRecord ∨ st = .WaitStartKey)
    (key val rest : List Char) (hk : textKeyOk key) (hv : textValOk val) :
    textGetToken st [] [] (key ++ ':' :: ' ' :: (val ++ '\n' :: rest)) =
      (.KeyValue (String.mk (trimChars key)) (String.mk (trimChars val)),
        .WaitStartKey, rest) := by
  obtain ⟨hne, hkc, hk1, hk2, hk3⟩ := hk
  cases key with
  | nil => exact absurd rfl hne
  | cons hc t =>
    simp only [List.head?_cons, ne_eq, Option.some.injEq] at hk1 hk2 hk3
    have hentry : textGetToken st [] []
        ((hc :: t) ++ ':' :: ' ' :: (val ++ '\n' :: rest)) =
        textGetToken .WaitEndKey [hc] [] (t ++ ':' :: ' ' :: (val ++ '\n' :: rest)) := by
      rcases hst with rfl | rfl
      · simp only [List.cons_append, textGetToken,
          if_neg (show ¬(hc = ' ' ∨ hc = '\n') by push_neg; exact ⟨hk1, hk2⟩),
          if_neg hk3, List.nil_append]
        rfl
      · simp only [List.cons_append, textGetToken, if_neg hk1, if_neg hk3, if_neg hk2,
          List.nil_append]
        rfl
    have hkey := textTok_key t [hc] [] (' ' :: (val ++ '\n' :: rest))
      (fun c hc2 => hkc c (by simp [hc2]))
    have hskip : textGetToken .WaitStartValue (hc :: t) []
        (' ' :: (val ++ '\n' :: rest)) =
        textGetToken .WaitStartValue (hc :: t) [] (val ++ '\n' :: rest) := by
      simp [textGetToken]
    rw [show ([hc] : List Char) ++ t = hc :: t from rfl] at hkey
    rw [hentry, hkey, hskip]
    rcases hv with ⟨hvne, hvnl, hv1, hv2⟩ | ⟨d, rfl, hdsafe⟩
    · cases val with
      | nil => exact absurd rfl hvne
      | cons vh vt =>
        simp only [List.head?_cons, ne_eq, Option.some.injEq] at hv1 hv2
        have hval := textTok_regular vt (hc :: t) [vh] rest
          (fun c hc2 => hvnl c (by simp [hc2]))
        simp only [List.cons_append, textGetToken, if_neg hv1, if_neg hv2,
          List.nil_append]
        simpa using hval
    · have hloop := textTok_string_loop d (hc :: t) ['"'] ('\n' :: rest) hdsafe
      have hfin := textTok_regular [] (hc :: t) ('"' :: (d ++ ['"'])) rest (by simp)
      simp only [List.append_nil] at hfin
      simp only [List.cons_append, textGetToken,
        if_neg (show ¬('"' : Char) = ' ' by decide), if_pos rfl, List.nil_append,
        if_true]
      show textGetToken .WaitEndString (hc :: t) ['"'] ((d ++ ['"']) ++ '\n' :: rest) = _
      rw [show (d ++ ['"']) ++ '\n' :: rest = d ++ '"' :: ('\n' :: rest) by simp]
      rw [hloop]
      show textGetToken .WaitEndRegular (hc :: t) ('"' :: (d ++ ['"'])) ('\n' :: rest) = _
      rw [show ('\n' :: rest : List Char) = [] ++ '\n' :: rest from rfl, hfin]

theorem serialize_eq_linesChars (fields : List (String × String)) (tail : List Char) :
    TextFinanceRecord.serialize fields ++ tail = linesChars fields ('\n' :: tail) := by
  induction fields with
  | nil => simp [TextFinanceRecord.serialize, linesChars]
  | cons kv rest ih =>
    simp only [TextFinanceRecord.serialize, List.map_cons, List.flatten_cons,
      List.append_assoc] at ih ⊢
    rw [show linesChars (kv :: rest) ('\n' :: tail) =
      kv.1.data ++ ':' :: ' ' :: (kv.2.data ++ '\n' :: linesChars rest ('\n' :: tail))
      from rfl, ← ih]
    simp

theorem textCollect_lines (ls : List (String × String)) : ∀ (st : TextParserState),
    (st = .WaitStartRecord ∨ st = .WaitStartKey) →
    ∀ (fields0 : List (String × String)) (tail : List Char),
    (∀ kv ∈ ls, textKeyOk kv.1.data ∧ textValOk kv.2.data) → ls ≠ [] →
    textCollect st fields0 (linesChars ls ('\n' :: tail)) =
      (textInsertAll fields0 (ls.map trimPair), .WaitStartRecord, tail) := by
  induction ls with
  | nil => intro st _ fields0 tail _ hne; exact absurd rfl hne
  | cons l ls ih =>
    intro st hst fields0 tail hok _
    rw [textCollect_eq]
    rw [show linesChars (l :: ls) ('\n' :: tail) =
      l.1.data ++ ':' :: ' ' :: (l.2.data ++ '\n' :: linesChars ls ('\n' :: tail))
      from rfl]
    obtain ⟨hk, hv⟩ := hok l (by simp)
    rw [textTok_kv st hst _ _ _ hk hv]
    dsimp only
    cases hls : ls with
    | nil =>
      rw [textCollect_eq]
      rw [show linesChars ([] : List (String × String)) ('\n' :: tail) = '\n' :: tail
        from rfl]
      rw [show textGetToken .WaitStartKey [] [] ('\n' :: tail) =
        (.SplitRecords, .WaitStartRecord, tail) from by simp [textGetToken]]
      simp [textInsertAll, trimPair]
    | cons l2 ls2 =>
      rw [← hls, ih .WaitStartKey (Or.inr rfl) _ tail
        (fun kv hkv => hok kv (by simp [hkv]))
        (by simp [hls])]
      simp [textInsertAll, trimPair]

theorem textValOk_of_all (s : List Char) (hne : s ≠ [])
    (h : ∀ c ∈ s, c ≠ '\n' ∧ c ≠ ' ' ∧ c ≠ '"') : textValOk s := by
  left
  refine ⟨hne, fun c hc => (h c hc).1, ?_, ?_⟩ <;>
  · cases s with
    | nil => simp
    | cons a t =>
      simp only [List.head?_cons, ne_eq, Option.some.injEq]
      have := h a (by simp)
      tauto

theorem textValOk_natRender (n : Nat) : textValOk (natRender n) := by
  apply textValOk_of_all _ (natRender_ne_nil n)
  intro c hc
  have h := natRender_safe n c hc
  tauto

theorem textValOk_intRender (a : Int) : textValOk (intRender a) := by
  apply textValOk_of_all _ (intRender_ne_nil a)
  intro c hc
  have h := intRender_safe a c hc
  tauto

theorem text_row_ok (d : FinanceData)
    (hdesc : ∀ c ∈ d.description.data, c ≠ '\\' ∧ c ≠ '"') :
    ∀ kv ∈ TextFinanceRecord.from_fin_data d,
      textKeyOk kv.1.data ∧ textValOk kv.2.data := by
  intro kv hkv
  simp only [TextFinanceRecord.from_fin_data, List.mem_cons, List.mem_singleton] at hkv
  rcases hkv with rfl | rfl | rfl | rfl | rfl | rfl | rfl | rfl | h
  · exact ⟨show textKeyOk TX_ID.data by unfold textKeyOk; decide, textValOk_natRender _⟩
  · refine ⟨show textKeyOk TX_TYPE.data by unfold textKeyOk; decide, ?_⟩
    cases d.tx_type <;>
    · apply textValOk_of_all _ (by decide)
      decide
  · exact ⟨show textKeyOk FROM_USER_ID.data by unfold textKeyOk; decide, textValOk_natRender _⟩
  · exact ⟨show textKeyOk TO_USER_ID.data by unfold textKeyOk; decide, textValOk_natRender _⟩
  · exact ⟨show textKeyOk AMOUNT.data by unfold textKeyOk; decide, textValOk_intRender _⟩
  · exact ⟨show textKeyOk TIMESTAMP.data by unfold textKeyOk; decide, textValOk_natRender _⟩
  · refine ⟨show textKeyOk STATUS.data by unfold textKeyOk; decide, ?_⟩
    cases d.status <;>
    · apply textValOk_of_all _ (by decide)
      decide
  · refine ⟨show textKeyOk DESCRIPTION.data by unfold textKeyOk; decide, ?_⟩
    right
    exact ⟨d.description.data, rfl, hdesc⟩
  · simp at h

theorem text_trim_row (d : FinanceData) :
    (TextFinanceRecord.from_fin_data d).map trimPair =
      TextFinanceRecord.from_fin_data d := by
  simp only [TextFinanceRecord.from_fin_data, List.map_cons, List.map_nil, trimPair]
  rw [show (quoteWrap d.description).data =
    '"' :: (d.description.data ++ ['"']) from rfl]
  rw [trimChars_quoted]
  cases d.tx_type <;> cases d.status <;>
    simp [trim_natRender, trim_intRender, quoteWrap] <;> decide

theorem textInsertAll_from (d : FinanceData) :
    textInsertAll [] (TextFinanceRecord.from_fin_data d) =
      TextFinanceRecord.from_fin_data d := rfl

theorem text_to_from (d : FinanceData) (hv : d.valid) :
    TextFinanceRecord.to_fin_data (TextFinanceRecord.from_fin_data d) = .ok d := by
  obtain ⟨hid, hfu, htu, ham1, ham2, hts1, hts2⟩ := hv
  obtain ⟨id, ty, fu, tu, am, ts, st, desc⟩ := d
  simp only at hid hfu htu ham1 ham2 hts1 hts2
  have hts3 : -(2 ^ 63) ≤ ts := by unfold chronoMinMillis at hts1; omega
  have hts4 : ts < 2 ^ 63 := by unfold chronoMaxMillis at hts2; omega
  have hu : u64ToI64 (i64ToU64 ts) = ts := u64_i64_roundtrip _ hts3 hts4
  have e1 : parseU64 (String.mk (natRender id)) = .ok id := parseU64_natRender id hid
  have e2 : parseU64 (String.mk (natRender fu)) = .ok fu := parseU64_natRender fu hfu
  have e3 : parseU64 (String.mk (natRender tu)) = .ok tu := parseU64_natRender tu htu
  have e4 : parseI64 (String.mk (intRender am)) = .ok am := parseI64_intRender am ham1 ham2
  have e5 : parseU64 (String.mk (natRender (i64ToU64 ts))) = .ok (i64ToU64 ts) :=
    parseU64_natRender _ (i64ToU64_lt ts)
  have e6 : fromTimestampMillis (u64ToI64 (i64ToU64 ts)) = some ts := by
    rw [hu]
    unfold fromTimestampMillis
    rw [if_pos ⟨hts1, hts2⟩]
  cases ty <;> cases st <;>
    simp [TextFinanceRecord.to_fin_data, textFieldsDecode,
      TextFinanceRecord.from_fin_data, CNT_VALUES, parseTxTypeTok, parseStatusTok,
      e1, e2, e3, e4, e5, e6, quoteWrap_head, quoteWrap_getLast,
      remove_quotes_quoteWrap, TX_ID, TX_TYPE, FROM_USER_ID, TO_USER_ID, AMOUNT,
      TIMESTAMP, STATUS, DESCRIPTION, DEPOSIT, TRANSFER, WITHDRAWAL, SUCCESS,
      FAILURE, PENDING, List.lookup]

theorem text_write_read (d : FinanceData) (hv : d.valid)
    (hdesc : ∀ c ∈ d.description.data, c ≠ '\\' ∧ c ≠ '"') :
    TextReader.read_fin_data .WaitStartRecord (TextWriter.write_fin_data d) =
      .ok (some d, .WaitStartRecord, []) := by
  have hw : TextWriter.write_fin_data d =
      linesChars (TextFinanceRecord.from_fin_data d) ['\n'] := by
    have h := serialize_eq_linesChars (TextFinanceRecord.from_fin_data d) []
    simpa [TextWriter.write_fin_data] using h
  have hcol := textCollect_lines (TextFinanceRecord.from_fin_data d)
    .WaitStartRecord (Or.inl rfl) [] [] (text_row_ok d hdesc)
    (by simp [TextFinanceRecord.from_fin_data])
  rw [text_trim_row, textInsertAll_from] at hcol
  simp only [TextReader.read_fin_data, hw, hcol]
  rw [if_neg (by simp [TextFinanceRecord.from_fin_data])]
  rw [text_to_from d hv]

theorem textDecode_keys (fields : List (String × String)) (d : FinanceData)
    (h : TextFinanceRecord.to_fin_data fields = .ok d) :
    fields.length = CNT_VALUES ∧
    ∀ kn ∈ HEADER_VALUES, (fields.lookup kn).isSome := by
  unfold TextFinanceRecord.to_fin_data at h
  split_ifs at h with hlen
  · refine ⟨by omega, ?_⟩
    unfold textFieldsDecode at h
    repeat' split at h
    all_goals
      intro kn hkn
      simp only [HEADER_VALUES, List.mem_cons, List.mem_singleton,
        List.not_mem_nil, or_false] at hkn
      rcases hkn with rfl | rfl | rfl | rfl | rfl | rfl | rfl | rfl <;> simp_all

theorem textDecode_count_error (fields : List (String × String))
    (h : fields.length ≠ CNT_VALUES) :
    TextFinanceRecord.to_fin_data fields = .err (.WrongFormat (countMsg fields)) := by
  unfold TextFinanceRecord.to_fin_data
  rw [if_pos h]

theorem textDecode_missing_txid (fields : List (String × String))
    (hlen : fields.length = CNT_VALUES)
    (hnone : fields.lookup TX_ID = none) :
    TextFinanceRecord.to_fin_data fields = .err (.WrongFormat (missingMsg TX_ID)) := by
  unfold TextFinanceRecord.to_fin_data textFieldsDecode
  rw [if_neg (by omega), hnone]

theorem lookup_cons_self (k v : String) (rest : List (String × String)) :
    List.lookup k ((k, v) :: rest) = some v := by
  simp [List.lookup]

theorem lookup_cons_ne (k k0 v0 : String) (rest : List (String × String))
    (h : k ≠ k0) : List.lookup k ((k0, v0) :: rest) = List.lookup k rest := by
  have hb : (k == k0) = false := beq_eq_false_iff_ne.mpr h
  simp [List.lookup, hb]

theorem insertField_lookup (fields : List (String × String)) (k v k2 : String) :
    (insertField fields k v).lookup k2 =
      if k2 = k then some v else fields.lookup k2 := by
  induction fields with
  | nil =>
    rw [show insertField [] k v = [(k, v)] from rfl]
    by_cases h : k2 = k
    · subst h
      rw [if_pos rfl, lookup_cons_self]
    · rw [if_neg h, lookup_cons_ne _ _ _ _ h]
  | cons p rest ih =>
    obtain ⟨k0, v0⟩ := p
    by_cases h0 : k0 = k
    · subst h0
      rw [show insertField ((k0, v0) :: rest) k0 v = (k0, v) :: rest
        from by simp [insertField]]
      by_cases h2 : k2 = k0
      · subst h2
        rw [if_pos rfl, lookup_cons_self]
      · rw [if_neg h2, lookup_cons_ne _ _ _ _ h2, lookup_cons_ne _ _ _ _ h2]
    · rw [show insertField ((k0, v0) :: rest) k v = (k0, v0) :: insertField rest k v
        from by simp [insertField, h0]]
      by_cases h2 : k2 = k0
      · subst h2
        have h3 : ¬k2 = k := fun hh => h0 (hh ▸ rfl)
        rw [lookup_cons_self, if_neg h3, lookup_cons_self]
      · rw [lookup_cons_ne _ _ _ _ h2, ih]
        by_cases h3 : k2 = k
        · rw [if_pos h3, if_pos h3]
        · rw [if_neg h3, if_neg h3, lookup_cons_ne _ _ _ _ h2]

theorem find?_append_or (l1 l2 : List (String × String))
    (p : String × String → Bool) :
    (l1 ++ l2).find? p = ((l1.find? p).or (l2.find? p)) := by
  induction l1 with
  | nil => simp
  | cons a t ih =>
    by_cases h : p a <;> simp [List.find?_cons, h, ih]

theorem lastOcc_cons (kv : String × String) (kvs : List (String × String))
    (k : String) :
    lastOcc (kv :: kvs) k =
      (lastOcc kvs k).or (if kv.1 = k then some kv.2 else none) := by
  unfold lastOcc
  rw [List.reverse_cons, find?_append_or]
  cases (kvs.reverse.find? fun kv2 => kv2.1 == k) with
  | none =>
    by_cases h : kv.1 = k
    · simp [List.find?, h]
    · have hb : (kv.1 == k) = false := beq_eq_false_iff_ne.mpr h
      simp [List.find?, hb, h]
  | some x => simp

theorem textInsertAll_lookup (kvs : List (String × String)) :
    ∀ (fields : List (String × String)) (k : String),
    (textInsertAll fields kvs).lookup k =
      (lastOcc kvs k).or (fields.lookup k) := by
  induction kvs with
  | nil =>
    intro fields k
    simp [textInsertAll, lastOcc]
  | cons kv kvs ih =>
    intro fields k
    rw [show textInsertAll fields (kv :: kvs) =
      textInsertAll (insertField fields kv.1 kv.2) kvs from rfl]
    rw [ih, insertField_lookup, lastOcc_cons]
    cases hlast : lastOcc kvs k with
    | some v => simp [Option.or]
    | none =>
      by_cases h : k = kv.1
      · simp [h, Option.or]
      · simp [if_neg h, if_neg (Ne.symm h), Option.or]

theorem textInsertAll_lookup_nil (kvs : List (String × String)) (k : String) :
    (textInsertAll [] kvs).lookup k = lastOcc kvs k := by
  rw [textInsertAll_lookup]
  simp [List.lookup]

theorem csvTok_regular_eofA (t : List Char) : ∀ (buf : List Char),
    (∀ c ∈ t, c ≠ ',' ∧ c ≠ '\n') →
    csvGetToken .WaitEndRegular buf t =
      (if trimChars (buf ++ t) = [] then .EndOfStream none
       else .EndOfStream (some (String.mk (trimChars (buf ++ t)))),
        .WaitEndRegular, []) := by
  induction t with
  | nil =>
    intro buf _
    by_cases h : trimChars buf = [] <;> simp [csvGetToken, h]
  | cons c t ih =>
    intro buf hsafe
    obtain ⟨hc1, hc2⟩ := hsafe c (by simp)
    have hrec := ih (buf ++ [c]) (fun x hx => hsafe x (by simp [hx]))
    rw [List.append_assoc] at hrec
    simp only [csvGetToken, if_neg hc1, if_neg hc2]
    simpa using hrec

theorem csvTok_unquoted_eof (st : CsvParserState)
    (hst : st = .WaitStartRecord ∨ st = .WaitStartValue)
    (h : Char) (t : List Char) (hh : h ≠ ' ' ∧ h ≠ '\n' ∧ h ≠ '"')
    (hsafe : ∀ c ∈ h :: t, c ≠ ',' ∧ c ≠ '\n')
    (hne : trimChars (h :: t) ≠ []) :
    csvGetToken st [] (h :: t) =
      (.EndOfStream (some (String.mk (trimChars (h :: t)))), .WaitEndRegular, []) := by
  obtain ⟨hh1, hh2, hh3⟩ := hh
  have hreg := csvTok_regular_eofA t [h] (fun c hc => hsafe c (by simp [hc]))
  rw [show ([h] : List Char) ++ t = h :: t from rfl, if_neg hne] at hreg
  rcases hst with rfl | rfl
  · simp only [csvGetToken,
      if_neg (show ¬(h = ' ' ∨ h = '\n') by push_neg; exact ⟨hh1, hh2⟩), if_neg hh3,
      List.nil_append]
    exact hreg
  · simp only [csvGetToken, if_neg hh1, if_neg hh3, List.nil_append]
    exact hreg

theorem csvTok_quoted_eof (st : CsvParserState)
    (hst : st = .WaitStartRecord ∨ st = .WaitStartValue)
    (d : List Char) (hsafe : ∀ c ∈ d, c ≠ '\\' ∧ c ≠ '"') :
    csvGetToken st [] ('"' :: (d ++ ['"'])) =
      (.EndOfStream (some (String.mk ('"' :: (d ++ ['"'])))), .WaitEndRegular, []) := by
  have hloop := csvTok_string_loop d ['"'] [] hsafe
  have hb : (['"'] : List Char) ++ d ++ ['"'] = '"' :: (d ++ ['"']) := by simp
  rw [hb] at hloop
  have hfin := csvTok_regular_eofA [] ('"' :: (d ++ ['"'])) (by simp)
  rw [List.append_nil, trimChars_quoted, if_neg (by simp)] at hfin
  have hstep : csvGetToken st [] ('"' :: (d ++ ['"'])) =
      csvGetToken .WaitEndString ['"'] (d ++ ['"']) := by
    rcases hst with rfl | rfl
    · simp [csvGetToken]
    · simp [csvGetToken]
  rw [hstep, show (d ++ ['"'] : List Char) = d ++ '"' :: [] from rfl, hloop, hfin]

theorem csvReadValues_fields_eof (fs : List String) : ∀ (f : String)
    (st : CsvParserState), (st = .WaitStartRecord ∨ st = .WaitStartValue) →
    csvFieldOk f.data → (∀ g ∈ fs, csvFieldOk g.data) →
    (∀ g ∈ f :: fs, trimChars g.data ≠ []) →
    csvReadValues st (fieldsCharsEof (f :: fs)) =
      ((f :: fs).map (fun g => String.mk (trimChars g.data)),
        .WaitEndRegular, [], .eofRem) := by
  induction fs with
  | nil =>
    intro f st hst hf _ hne
    rw [show fieldsCharsEof [f] = f.data from rfl, csvReadValues_eq]
    rcases hf with ⟨hfne, hsafe, hsp, hnl, hq⟩ | ⟨d, hd, hdsafe⟩
    · cases hfd : f.data with
      | nil => exact absurd hfd hfne
      | cons h t =>
        rw [hfd] at hsafe hsp hnl hq
        simp only [List.head?_cons, ne_eq, Option.some.injEq] at hsp hnl hq
        have hne2 : trimChars (h :: t) ≠ [] := by
          have := hne f (by simp)
          rw [hfd] at this
          exact this
        rw [csvTok_unquoted_eof st hst h t ⟨hsp, hnl, hq⟩ hsafe hne2]
        simp [hfd]
    · rw [hd, csvTok_quoted_eof st hst d hdsafe]
      simp [hd, trimChars_quoted]
  | cons g fs ih =>
    intro f st hst hf hgs hne
    rw [show fieldsCharsEof (f :: g :: fs) = f.data ++ ',' :: fieldsCharsEof (g :: fs)
      from rfl, csvReadValues_eq]
    rcases hf with ⟨hfne, hsafe, hsp, hnl, hq⟩ | ⟨d, hd, hdsafe⟩
    · cases hfd : f.data with
      | nil => exact absurd hfd hfne
      | cons h t =>
        rw [hfd] at hsafe hsp hnl hq
        simp only [List.head?_cons, ne_eq, Option.some.injEq] at hsp hnl hq
        rw [(csvTok_unquoted st hst h t (fieldsCharsEof (g :: fs))
          ⟨hsp, hnl, hq⟩ hsafe).1]
        dsimp only
        rw [ih g .WaitStartValue (Or.inr rfl) (hgs g (by simp))
          (fun x hx => hgs x (by simp [hx]))
          (fun x hx => hne x (by simp at hx; simp [hx]))]
        simp [hfd]
    · rw [hd]
      rw [(csvTok_quoted st hst d (fieldsCharsEof (g :: fs)) hdsafe).1]
      dsimp only
      rw [ih g .WaitStartValue (Or.inr rfl) (hgs g (by simp))
        (fun x hx => hgs x (by simp [hx]))
        (fun x hx => hne x (by simp at hx; simp [hx]))]
      simp [hd, trimChars_quoted]

theorem csv_row_trim_ne (t : Transaction) :
    ∀ g ∈ CsvTxRecord.from_transaction t, trimChars g.data ≠ [] := by
  intro g hg
  simp only [CsvTxRecord.from_transaction, List.mem_cons, List.mem_singleton] at hg
  rcases hg with rfl | rfl | rfl | rfl | rfl | rfl | rfl | rfl | h
  · rw [show (String.mk (natRender t.tx_id)).data = natRender t.tx_id from rfl,
      trim_natRender]
    exact natRender_ne_nil _
  · cases t.tx_type <;> decide
  · rw [show (String.mk (natRender t.from_user_id)).data = natRender t.from_user_id
      from rfl, trim_natRender]
    exact natRender_ne_nil _
  · rw [show (String.mk (natRender t.to_user_id)).data = natRender t.to_user_id
      from rfl, trim_natRender]
    exact natRender_ne_nil _
  · rw [show (String.mk (intRender t.amount)).data = intRender t.amount from rfl,
      trim_intRender]
    exact intRender_ne_nil _
  · rw [show (String.mk (natRender (i64ToU64 t.timestamp))).data =
      natRender (i64ToU64 t.timestamp) from rfl, trim_natRender]
    exact natRender_ne_nil _
  · cases t.status <;> decide
  · rw [show (quoteWrap t.description).data =
      '"' :: (t.description.data ++ ['"']) from rfl, trimChars_quoted]
    simp
  · simp at h

theorem csv_flush_partial (t : Transaction) (hv : t.valid)
    (hdesc : ∀ c ∈ t.description.data, c ≠ '\\' ∧ c ≠ '"') :
    CsvTxReader.read_transaction CsvTxReader.initState
      (csvHeaderLine ++ fieldsCharsEof (CsvTxRecord.from_transaction t)) =
      .ok (some t, ⟨true, .WaitEndRegular⟩, []) := by
  have hhk : ∀ g ∈ HEADER_VALUES, csvFieldOk g.data := by
    intro g hg
    fin_cases hg <;>
    · apply csvFieldOk_of_all _ (by decide)
      decide
  have hinput : csvHeaderLine ++ fieldsCharsEof (CsvTxRecord.from_transaction t) =
      fieldsChars HEADER_VALUES (fieldsCharsEof (CsvTxRecord.from_transaction t)) := by
    unfold csvHeaderLine
    exact serialize_eq_fieldsChars HEADER_VALUES (by simp [HEADER_VALUES]) _
  have hread1 : csvReadValues .WaitStartRecord
      (fieldsChars HEADER_VALUES (fieldsCharsEof (CsvTxRecord.from_transaction t))) =
      (HEADER_VALUES.map (fun g => String.mk (trimChars g.data)), .WaitStartRecord,
        fieldsCharsEof (CsvTxRecord.from_transaction t), .line) :=
    csvReadValues_fields
      [TX_TYPE, FROM_USER_ID, TO_USER_ID, AMOUNT, TIMESTAMP, STATUS, DESCRIPTION]
      TX_ID _ .WaitStartRecord (Or.inl rfl) (hhk TX_ID (by simp [HEADER_VALUES]))
      (fun g hg => hhk g (by simp [HEADER_VALUES]; simp at hg; tauto))
  have hmapH : HEADER_VALUES.map (fun g => String.mk (trimChars g.data)) =
      HEADER_VALUES := by decide
  have hrowfields := csv_row_fieldOk t hdesc
  have hread2 : csvReadValues .WaitStartRecord
      (fieldsCharsEof (CsvTxRecord.from_transaction t)) =
      ((CsvTxRecord.from_transaction t).map (fun g => String.mk (trimChars g.data)),
        .WaitEndRegular, [], .eofRem) :=
    csvReadValues_fields_eof _ _ .WaitStartRecord (Or.inl rfl)
      (hrowfields _ (by simp [CsvTxRecord.from_transaction]))
      (fun g hg => hrowfields g (by simp [CsvTxRecord.from_transaction]; simp at hg; tauto))
      (csv_row_trim_ne t)
  rw [hinput]
  simp only [CsvTxReader.read_transaction, CsvTxReader.initState]
  rw [if_neg (by simp)]
  simp only [CsvTxReader.read_header, hread1, hmapH]
  rw [if_neg (by simp)]
  simp only [CsvTxReader.read_row, hread2, csv_trim_row]
  rw [if_neg (by simp [CsvTxRecord.from_transaction])]
  rw [csv_to_from t hv]

theorem csv_read_row_empty (p : CsvParserState) (input : List Char)
    (h : (csvReadValues p input).1 = []) :
    CsvTxReader.read_row p input =
      .ok (none, ⟨true, (csvReadValues p input).2.1⟩,
        (csvReadValues p input).2.2.1) := by
  simp only [CsvTxReader.read_row]
  rw [if_pos h]

theorem csv_read_row_flush (p : CsvParserState) (input : List Char)
    (h : (csvReadValues p input).1 ≠ []) :
    CsvTxReader.read_row p input =
      (match CsvTxRecord.to_transaction (csvReadValues p input).1 with
       | .ok t2 => .ok (some t2, ⟨true, (csvReadValues p input).2.1⟩,
           (csvReadValues p input).2.2.1)
       | .err e => .err e
       | .crash => .crash) := by
  simp only [CsvTxReader.read_row]
  rw [if_neg h]

theorem csv_read_row_none (p : CsvParserState) (input : List Char)
    (st2 : CsvReaderState) (rest2 : List Char)
    (h : CsvTxReader.read_row p input = .ok (none, st2, rest2)) :
    (csvReadValues p input).1 = [] := by
  by_cases hv : (csvReadValues p input).1 = []
  · exact hv
  · exfalso
    rw [csv_read_row_flush p input hv] at h
    cases ht : CsvTxRecord.to_transaction (csvReadValues p input).1 <;>
      rw [ht] at h <;> simp at h

/-- C1: For every valid Transaction, encode-then-decode with the same
codec returns the same value — as amended: the binary codec round-trips
whenever the quoted description fits a `u32` length; the CSV and text
codecs round-trip whenever the description contains no backslash and
no double quote (a sufficient condition; the counterexample shows a
backslash breaks the CSV round trip). -/
theorem claim_C1 :
    (∀ d : FinanceData, d.valid →
      utf8Len (quoteWrap d.description).data < 2 ^ 32 →
      BinReader.read_fin_data (BinWriter.write_fin_data d) = .ok (some d, [])) ∧
    (∀ t : Transaction, t.valid →
      (∀ c ∈ t.description.data, c ≠ '\\' ∧ c ≠ '"') →
      CsvTxReader.read_transaction CsvTxReader.initState
        (CsvTxWriter.write_first_transaction t) =
        .ok (some t, ⟨true, .WaitStartRecord⟩, [])) ∧
    (∀ d : FinanceData, d.valid →
      (∀ c ∈ d.description.data, c ≠ '\\' ∧ c ≠ '"') →
      TextReader.read_fin_data .WaitStartRecord (TextWriter.write_fin_data d) =
        .ok (some d, .WaitStartRecord, [])) :=
  ⟨fun d hv hfit => bin_write_read d hv hfit,
   fun t hv hdesc => csv_write_read t hv hdesc,
   fun d hv hdesc => text_write_read d hv hdesc⟩

set_option maxRecDepth 10000 in
/-- Witness for C1 at the source test record. -/
theorem claim_C1_witness :
    BinReader.read_fin_data (BinWriter.write_fin_data tx1) = .ok (some tx1, []) ∧
    CsvTxReader.read_transaction CsvTxReader.initState
      (CsvTxWriter.write_first_transaction tx1) =
      .ok (some tx1, ⟨true, .WaitStartRecord⟩, []) ∧
    TextReader.read_fin_data .WaitStartRecord (TextWriter.write_fin_data tx1) =
      .ok (some tx1, .WaitStartRecord, []) :=
  ⟨claim_C1.1 tx1 (by decide) (by decide),
   claim_C1.2.1 tx1 (by decide) (by decide),
   claim_C1.2.2 tx1 (by decide) (by decide)⟩

set_option maxRecDepth 10000 in
set_option maxRecDepth 100000 in
/-- Counterexample for C1 as stated: `txC1` is valid, but its
description holds a backslash, and the CSV round trip returns a
different transaction (the backslash is dropped by the escape handling
of the quoted-string lexer). -/
theorem claim_C1_counterexample :
    txC1.valid ∧
    CsvTxReader.read_transaction CsvTxReader.initState
      (CsvTxWriter.write_first_transaction txC1) =
      .ok (some txC1res, ⟨true, .WaitStartRecord⟩, []) ∧
    txC1res ≠ txC1 := by
  refine ⟨by decide, by decide, by decide⟩

/-- C2: as amended — a binary stream truncated anywhere strictly inside
a serialized record (including after the magic) makes the reader return
clean end-of-data `Ok(None)`, exactly as an empty stream does; the
`read_exact` EOF becomes `ParsError::EndOfStream`, which
`read_fin_data` converts to `Ok(None)` wherever it occurs, so no I/O
error distinguishes mid-record truncation from a stream ending between
records. -/
theorem claim_C2 (d : FinanceData)
    (hfit : utf8Len (quoteWrap d.description).data < 2 ^ 32)
    (n : Nat) (hn : n < (BinWriter.write_fin_data d).length) :
    BinReader.read_fin_data ((BinWriter.write_fin_data d).take n) =
      .ok (none, []) ∧
    BinReader.read_fin_data [] = .ok (none, []) :=
  ⟨bin_read_truncated d hfit n hn, rfl⟩

set_option maxRecDepth 10000 in
/-- Witness for C2: the test record truncated to 20 bytes (inside the
fixed-width fields, past the magic) reads as clean end-of-data. -/
theorem claim_C2_witness :
    BinReader.read_fin_data ((BinWriter.write_fin_data tx1).take 20) =
      .ok (none, []) ∧
    BinReader.read_fin_data [] = .ok (none, []) :=
  claim_C2 tx1 (by decide) 20 (by decide)

set_option maxRecDepth 100000 in
/-- Counterexample for C2 as stated: the claim predicts an I/O error
for EOF after the magic but before the record body ends; the test
record truncated to 10 bytes (magic plus two more bytes) instead reads
as clean end-of-data, with no error at all. -/
theorem claim_C2_counterexample :
    4 < 10 ∧ 10 < (BinWriter.write_fin_data tx1).length ∧
    BinReader.read_fin_data ((BinWriter.write_fin_data tx1).take 10) =
      .ok (none, []) := by
  refine ⟨by decide, by decide, by decide⟩

set_option maxRecDepth 100000 in
/-- C3: the source test record serializes under the binary codec to the
`EXPECTED_BIN` byte sequence (beginning `59 50 42 4E 00 00 00 3F`), and
that exact byte sequence decodes back to the same field values. -/
theorem claim_C3 :
    BinWriter.write_fin_data tx1 = expectedBin ∧
    expectedBin.take 8 = [0x59, 0x50, 0x42, 0x4e, 0x00, 0x00, 0x00, 0x3f] ∧
    BinReader.read_fin_data expectedBin = .ok (some tx1, []) := by
  refine ⟨by decide, by decide, by decide⟩

/-- C4: a CSV stream whose first line does not tokenize to exactly the
eight header names in canonical order makes the first
`read_transaction` call fail with the bad-header format error; no row
is decoded. -/
theorem claim_C4 (input : List Char)
    (h : (csvReadValues .WaitStartRecord input).1 ≠ HEADER_VALUES) :
    CsvTxReader.read_transaction CsvTxReader.initState input =
      .err (.WrongFormat ("Неверный заголовок: " ++
        renderStrList (csvReadValues .WaitStartRecord input).1)) := by
  simp only [CsvTxReader.read_transaction, CsvTxReader.initState]
  rw [if_neg (by simp)]
  simp only [CsvTxReader.read_header]
  rw [if_pos h]

set_option maxRecDepth 10000 in
/-- Witness for C4: a stream whose header line holds the right names in
the wrong order (`TX_TYPE` first) is rejected. -/
theorem claim_C4_witness :
    CsvTxReader.read_transaction CsvTxReader.initState
      ("TX_TYPE,TX_ID,FROM_USER_ID,TO_USER_ID,AMOUNT,TIMESTAMP,STATUS,DESCRIPTION\n").data =
      .err (.WrongFormat ("Неверный заголовок: " ++
        renderStrList (csvReadValues .WaitStartRecord
          ("TX_TYPE,TX_ID,FROM_USER_ID,TO_USER_ID,AMOUNT,TIMESTAMP,STATUS,DESCRIPTION\n").data).1)) :=
  claim_C4 _ (by decide)

/-- C5: as amended — decode of a completed text block succeeds only if
the field map holds exactly `CNT_VALUES = 8` entries with all eight
required keys present; but the rejection messages are not as claimed:
a wrong field count yields the generic count-mismatch message listing
the collected pairs (naming no missing key), and when the count is
right the decoder reports the first missing key in its fixed lookup
order — with a missing `TX_ID` (and, by a source quirk, also a missing
`TX_TYPE`) reported as `TX_ID` — never the unexpected extra key. -/
theorem claim_C5 :
    (∀ (fields : List (String × String)) (d : FinanceData),
      TextFinanceRecord.to_fin_data fields = .ok d →
      fields.length = CNT_VALUES ∧
      ∀ kn ∈ HEADER_VALUES, (fields.lookup kn).isSome) ∧
    (∀ fields : List (String × String), fields.length ≠ CNT_VALUES →
      TextFinanceRecord.to_fin_data fields =
        .err (.WrongFormat (countMsg fields))) ∧
    (∀ fields : List (String × String), fields.length = CNT_VALUES →
      fields.lookup TX_ID = none →
      TextFinanceRecord.to_fin_data fields =
        .err (.WrongFormat (missingMsg TX_ID))) :=
  ⟨fun fields d h => textDecode_keys fields d h,
   fun fields h => textDecode_count_error fields h,
   fun fields h1 h2 => textDecode_missing_txid fields h1 h2⟩

set_option maxRecDepth 10000 in
/-- Witness for C5 at concrete field maps: a successful decode has all
eight keys; a seven-entry map gets the count error; an eight-entry map
without `TX_ID` gets the `TX_ID` missing-key error. -/
theorem claim_C5_witness :
    (fieldsOk.length = CNT_VALUES ∧
      ∀ kn ∈ HEADER_VALUES, (fieldsOk.lookup kn).isSome) ∧
    TextFinanceRecord.to_fin_data textMissingDescFields =
      .err (.WrongFormat (countMsg textMissingDescFields)) ∧
    TextFinanceRecord.to_fin_data fieldsNoTxId =
      .err (.WrongFormat (missingMsg TX_ID)) :=
  ⟨claim_C5.1 fieldsOk txOk (by decide),
   claim_C5.2.1 textMissingDescFields (by decide),
   claim_C5.2.2 fieldsNoTxId (by decide) (by decide)⟩

set_option maxRecDepth 100000 in
/-- Counterexample for C5 as stated: the block missing `DESCRIPTION` is
rejected with the generic count message, which does not contain the
string `DESCRIPTION` at all; the block with the unexpected key `FOO`
in place of `TX_TYPE` is rejected with a message naming `TX_ID` — not
`FOO`, and not even the actually missing `TX_TYPE`. -/
theorem claim_C5_counterexample :
    TextReader.read_fin_data .WaitStartRecord textMissingDesc =
      .err (.WrongFormat (countMsg textMissingDescFields)) ∧
    ¬ List.IsInfix "DESCRIPTION".data (countMsg textMissingDescFields).data ∧
    TextReader.read_fin_data .WaitStartRecord textExtraKey =
      .err (.WrongFormat "Отсутствует запись: TX_ID") ∧
    ¬ List.IsInfix "FOO".data "Отсутствует запись: TX_ID".data ∧
    ¬ List.IsInfix "TX_TYPE".data "Отсутствует запись: TX_ID".data := by
  refine ⟨by decide, by decide, by decide, by decide, by decide⟩

/-- C6: reader and writer construction succeed for every format name;
the three recognized names select the corresponding codec, and any
other name yields the `Unsupported` variant whose every read or write
fails with a format error carrying the original name. -/
theorem claim_C6 (name : String) (chars : List Char) (bytes : List Nat)
    (t : Transaction) :
    TxReader.new CSV_FORMAT chars bytes = .ok (.Csv CsvTxReader.initState chars) ∧
    TxReader.new TEXT_FORMAT chars bytes = .ok (.Text .WaitStartRecord chars) ∧
    TxReader.new BIN_FORMAT chars bytes = .ok (.Bin bytes) ∧
    (name ≠ CSV_FORMAT → name ≠ TEXT_FORMAT → name ≠ BIN_FORMAT →
      TxReader.new name chars bytes = .ok (.Unsupported name) ∧
      TxWriter.new name = .ok (.Unsupported name) ∧
      TxReader.read_transaction (.Unsupported name) = .err (.WrongFormat name) ∧
      TxWriter.write_transaction (.Unsupported name) t =
        .err (.WrongFormat name)) := by
  refine ⟨rfl, rfl, rfl, fun h1 h2 h3 => ⟨?_, ?_, rfl, rfl⟩⟩
  · simp only [TxReader.new]
    rw [if_neg h1, if_neg h2, if_neg h3]
  · simp only [TxWriter.new]
    rw [if_neg h1, if_neg h2, if_neg h3]

/-- Witness for C6 at the unrecognized name `xml`. -/
theorem claim_C6_witness :
    TxReader.new "xml" [] [] = .ok (.Unsupported "xml") ∧
    TxWriter.new "xml" = .ok (.Unsupported "xml") ∧
    TxReader.read_transaction (.Unsupported "xml") =
      .err (.WrongFormat "xml") ∧
    TxWriter.write_transaction (.Unsupported "xml") tx1 =
      .err (.WrongFormat "xml") :=
  (claim_C6 "xml" [] [] tx1).2.2.2 (by decide) (by decide) (by decide)

/-- C7: the error-conversion boundary — an I/O error of kind
`UnexpectedEof` becomes `EndOfStream`, every other I/O kind becomes
`IoError` with the error's rendering, and UTF-8 and integer-parse
failures become `WrongFormat`. -/
theorem claim_C7 :
    (∀ msg, ParsError.fromIoError .UnexpectedEof msg = .EndOfStream) ∧
    (∀ (kind : IoErrorKind) (msg : String), kind ≠ .UnexpectedEof →
      ParsError.fromIoError kind msg = .IoError msg) ∧
    (∀ msg, ParsError.fromUtf8Error msg = .WrongFormat msg) ∧
    (∀ msg, ParsError.fromParseIntError msg = .WrongFormat msg) := by
  refine ⟨fun msg => rfl, ?_, fun msg => rfl, fun msg => rfl⟩
  intro kind msg h
  cases kind with
  | UnexpectedEof => exact absurd rfl h
  | other tag => rfl

/-- Witness for C7 at a concrete non-EOF kind. -/
theorem claim_C7_witness :
    ParsError.fromIoError (.other 0) "boom" = .IoError "boom" :=
  claim_C7.2.1 (.other 0) "boom" (by decide)

/-- C8: a CSV stream ending in a non-empty partial row (data after the
last newline) has that row flushed into record decoding as a final
record — an eight-field trailing row decodes to its transaction — and
any non-empty pending value list is handed to `to_transaction` rather
than treated as truncation; clean end-of-data (`Ok(None)`) arises
exactly when the pending value list is empty. -/
theorem claim_C8 :
    (∀ t : Transaction, t.valid →
      (∀ c ∈ t.description.data, c ≠ '\\' ∧ c ≠ '"') →
      CsvTxReader.read_transaction CsvTxReader.initState
        (csvHeaderLine ++ fieldsCharsEof (CsvTxRecord.from_transaction t)) =
        .ok (some t, ⟨true, .WaitEndRegular⟩, [])) ∧
    (∀ (p : CsvParserState) (input : List Char),
      (csvReadValues p input).1 ≠ [] →
      CsvTxReader.read_row p input =
        (match CsvTxRecord.to_transaction (csvReadValues p input).1 with
         | .ok t2 => .ok (some t2, ⟨true, (csvReadValues p input).2.1⟩,
             (csvReadValues p input).2.2.1)
         | .err e => .err e
         | .crash => .crash)) ∧
    (∀ (p : CsvParserState) (input : List Char),
      (csvReadValues p input).1 = [] →
      CsvTxReader.read_row p input =
        .ok (none, ⟨true, (csvReadValues p input).2.1⟩,
          (csvReadValues p input).2.2.1)) ∧
    (∀ (p : CsvParserState) (input : List Char) (st2 : CsvReaderState)
      (rest2 : List Char),
      CsvTxReader.read_row p input = .ok (none, st2, rest2) →
      (csvReadValues p input).1 = []) :=
  ⟨fun t hv hdesc => csv_flush_partial t hv hdesc,
   fun p input h => csv_read_row_flush p input h,
   fun p input h => csv_read_row_empty p input h,
   fun p input st2 rest2 h => csv_read_row_none p input st2 rest2 h⟩

set_option maxRecDepth 100000 in
/-- Witness for C8: the test record with the final newline removed
still reads back; a lone partial value is handed to row decoding; the
empty stream is clean end-of-data. -/
theorem claim_C8_witness :
    CsvTxReader.read_transaction CsvTxReader.initState
      (csvHeaderLine ++ fieldsCharsEof (CsvTxRecord.from_transaction tx1)) =
      .ok (some tx1, ⟨true, .WaitEndRegular⟩, []) ∧
    CsvTxReader.read_row .WaitStartRecord ("A").data =
      (match CsvTxRecord.to_transaction
          (csvReadValues .WaitStartRecord ("A").data).1 with
       | .ok t2 => .ok (some t2,
           ⟨true, (csvReadValues .WaitStartRecord ("A").data).2.1⟩,
           (csvReadValues .WaitStartRecord ("A").data).2.2.1)
       | .err e => .err e
       | .crash => .crash) ∧
    CsvTxReader.read_row .WaitStartRecord [] =
      .ok (none, ⟨true, (csvReadValues .WaitStartRecord []).2.1⟩,
        (csvReadValues .WaitStartRecord []).2.2.1) ∧
    (csvReadValues .WaitStartRecord []).1 = [] :=
  ⟨claim_C8.1 tx1 (by decide) (by decide),
   claim_C8.2.1 .WaitStartRecord ("A").data (by decide),
   claim_C8.2.2.1 .WaitStartRecord [] (by decide),
   claim_C8.2.2.2 .WaitStartRecord [] ⟨true, .WaitStartRecord⟩ [] (by decide)⟩

set_option maxRecDepth 100000 in
/-- C9: the claim states decoding never panics, but the binary reader
crashes on a record whose description is the single byte `"`
(`desc_len = 1`): the quote-check passes (first and last character are
the same `"`), and `remove_quotes` slices `&val[1..0]`, which panics.
In the model the panic is the `.crash` outcome. -/
theorem claim_C9 :
    BinReader.read_fin_data crashStream = .crash := by
  decide

/-- C10: as amended — when a text block's fields are accumulated, a
later `key: value` line overwrites an earlier one with the same key
(`HashMap::insert`), so every key resolves to its last occurrence; a
block whose distinct-key set is exactly the eight required keys passes
the count check and is decoded from those last-occurrence values —
the duplication itself raises no error, but decode succeeds only if
the surviving values are themselves valid (the counterexample shows a
duplicate whose last occurrence is non-numeric makes the block fail). -/
theorem claim_C10 (kvs : List (String × String))
    (hdup : ∃ k, 2 ≤ kvs.countP (fun kv => kv.1 == k))
    (hlen : (textInsertAll [] kvs).length = CNT_VALUES)
    (_hall : ∀ kn ∈ HEADER_VALUES, ((textInsertAll [] kvs).lookup kn).isSome) :
    (∀ k, (textInsertAll [] kvs).lookup k = lastOcc kvs k) ∧
    TextFinanceRecord.to_fin_data (textInsertAll [] kvs) =
      textFieldsDecode (textInsertAll [] kvs) := by
  refine ⟨fun k => textInsertAll_lookup_nil kvs k, ?_⟩
  unfold TextFinanceRecord.to_fin_data
  rw [if_neg (by omega)]

set_option maxRecDepth 10000 in
/-- Witness for C10: a token list with two `TX_ID` lines; the map
resolves `TX_ID` to the later value `7` and the block enters field
decoding. -/
theorem claim_C10_witness :
    ((textInsertAll [] dupTokens).lookup TX_ID = lastOcc dupTokens TX_ID ∧
      TextFinanceRecord.to_fin_data (textInsertAll [] dupTokens) =
        textFieldsDecode (textInsertAll [] dupTokens)) ∧
    lastOcc dupTokens TX_ID = some "7" :=
  ⟨⟨(claim_C10 dupTokens ⟨TX_ID, by decide⟩ (by decide) (by decide)).1 TX_ID,
    (claim_C10 dupTokens ⟨TX_ID, by decide⟩ (by decide) (by decide)).2⟩,
   by decide⟩

set_option maxRecDepth 100000 in
/-- Counterexample for C10 as stated: a complete block whose
distinct-key set is the eight required keys and in which `TX_ID`
appears twice is not accepted unconditionally — the reader decodes
`TX_ID` from the last occurrence (`abc`) and fails with the integer
parse error. -/
theorem claim_C10_counterexample :
    (textCollect .WaitStartRecord [] textDupKey).1.length = 8 ∧
    TextReader.read_fin_data .WaitStartRecord textDupKey =
      .err (.WrongFormat "invalid digit found in string") := by
  refine ⟨by decide, by decide⟩
